import Mathlib

/-!
Verification of the md2doc fallback Markdown-to-docx renderer (md2doc.py).

The development shallowly embeds the two core components of the source:

* the style resolver/applier `_apply_doc_defaults` (source lines 47-117),
  modeled by `resolve` (the collection of all `cfg.get(key, default)`
  reads) and `apply_doc_defaults` (the mutation of the document's section
  geometry, named styles, header and footer);
* the token-stream walker of `fallback_convert_with_python_docx`
  (source lines 208-293), modeled by `step` (one iteration of the while
  loop), `walk` (the loop, fuel-indexed) and `build` (the loop run from
  the initial state with enough fuel to consume the stream).

Tokens are modeled duck-typed as in markdown-it-py: a token carries a
`type` tag, an html `tag`, optional child spans and a raw `content`
string.  Python truthiness of `children` / `content` (None and empty are
falsy) is modeled explicitly.  The list context stack grows at the head
(the source appends at the end and reads `list_stack[-1]`; only the top
and the length are ever consumed, so a head-push model is equivalent).
-/

namespace Md2doc

/-- Inline child span of a markdown-it inline token: a kind tag plus its
text content (empty when the span kind carries no text payload). -/
structure Span where
  type : String
  content : String := ""
deriving DecidableEq, Repr

/-- A markdown-it token as consumed by the fallback converter. -/
structure Token where
  type : String
  tag : String := ""
  children : Option (List Span) := none
  content : String := ""
deriving DecidableEq, Repr

/-- A python-docx run: its text plus the font overrides the source sets. -/
structure Run where
  text : String
  font_name : Option String := none
  font_size_pt : Option Nat := none
deriving DecidableEq, Repr

/-- A python-docx paragraph: runs, named style, optional fixed line spacing. -/
structure Paragraph where
  runs : List Run
  style : String := "Normal"
  line_spacing_pt : Option Nat := none
deriving DecidableEq, Repr

/-- Entry of the list context stack: the source pushes
dictionaries holding the opening token type and the depth at push time. -/
structure StackEntry where
  type : String
  indent : Nat
deriving DecidableEq, Repr

/-- Builder state: the cursor i, the list context stack (top at head) and
the paragraphs appended to the document so far. -/
structure BState where
  i : Nat
  list_stack : List StackEntry
  paras : List Paragraph
deriving DecidableEq, Repr

/-- Concatenation of a list of strings (Python "".join). -/
def strJoin : List String → String
  | [] => ""
  | s :: rest => s ++ strJoin rest

/-- Python truthiness of token.children: not None and nonempty. -/
def childrenTruthy (t : Token) : Bool :=
  match t.children with
  | some (_ :: _) => true
  | _ => false

/-- Source: "".join(ch.content for ch in children if getattr(ch, "content", None)).
The generator filters children whose content is falsy (empty). -/
def joinContents (ch : Option (List Span)) : String :=
  strJoin (((ch.getD []).filter (fun c => c.content != "")).map (fun c => c.content))

/-- Heading text extraction: join the children when they are truthy, else "". -/
def textOfInline (t : Token) : String :=
  if childrenTruthy t then joinContents t.children else ""

/-- Inline rendering dispatch of add_paragraph_from_inline (source lines
182-206): the runs contributed by one child span. -/
def spanRuns (c : Span) : List Run :=
  if c.type = "text" then [{ text := c.content }]
  else if c.type = "code_inline" then [{ text := c.content, font_name := some ("Consolas") }]
  else if c.type = "softbreak" ∨ c.type = "hardbreak" then [{ text := "\n" }]
  else if c.type = "em_open" ∨ c.type = "em_close" then []
  else if c.type = "strong_open" ∨ c.type = "strong_close" then []
  else if c.type = "link_open" then []
  else if c.type = "link_close" then []
  else if c.content != "" then [{ text := c.content }]
  else []

/-- Runs produced by walking a child-span list in order. -/
def runsOfChildren : List Span → List Run
  | [] => []
  | c :: rest => spanRuns c ++ runsOfChildren rest

/-- add_paragraph_from_inline: one fresh paragraph whose runs come from the
children (Python: for child in inline_children or []). -/
def add_paragraph_from_inline (children : Option (List Span)) : Paragraph :=
  { runs := runsOfChildren (children.getD []) }

/-- doc.add_paragraph(text, style): python-docx adds one run exactly when
the text is nonempty. -/
def add_paragraph_text (text : String) (style : String) : Paragraph :=
  { runs := if text = "" then [] else [{ text := text }], style := style }

/-- Heading level: int(tok.tag[-1]) if tok.tag.startswith("h") else 1.
The digit value of the last character models int() on the tags h1..h6. -/
def headingLevel (tag : String) : Nat :=
  if tag.data.head? = some 'h' then
    match tag.data.getLast? with
    | some c => c.toNat - 48
    | none => 1
  else 1

/-- Python str.rstrip of newline: remove every trailing newline character. -/
def rstripNL (s : String) : String :=
  String.mk (s.data.reverse.dropWhile (fun c => c == '\n')).reverse

/-- Python string repetition s * n (n copies; a negative count in the
source yields the empty string, matched here by Nat subtraction). -/
def pyRepeat (s : String) : Nat → String
  | 0 => ""
  | n + 1 => s ++ pyRepeat s n

/-- Inner scan of the list_item_open handler (source lines 250-257): walk
the suffix after the cursor until the first list_item_close, keeping the
joined child text of the last inline token with truthy children.  Returns
the number of tokens consumed before the close and the accumulated text. -/
def itemScan : List Token → String → Nat × String
  | [], acc => (0, acc)
  | tok :: rest, acc =>
    if tok.type = "list_item_close" then (0, acc)
    else
      let acc2 := if tok.type = "inline" ∧ childrenTruthy tok = true then
        joinContents tok.children else acc
      let r := itemScan rest acc2
      (r.1 + 1, r.2)

/-- Inner scan of the blockquote_open handler (source lines 276-281):
walk until the first blockquote_close, collecting the raw content of
every inline token with truthy (nonempty) content. -/
def quoteScan : List Token → List String → Nat × List String
  | [], acc => (0, acc)
  | tok :: rest, acc =>
    if tok.type = "blockquote_close" then (0, acc)
    else
      let acc2 := if tok.type = "inline" ∧ tok.content ≠ "" then acc ++ [tok.content] else acc
      let r := quoteScan rest acc2
      (r.1 + 1, r.2)

/-- One iteration of the while loop of fallback_convert_with_python_docx
(source lines 209-293).  Every branch mirrors the source's cursor
arithmetic; the unreachable out-of-bounds read (the loop guard ensures
i < len(tokens)) leaves the state unchanged. -/
def step (ts : List Token) (st : BState) : BState :=
  match ts[st.i]? with
  | none => st
  | some tok =>
    if tok.type = "heading_open" then
      let level := headingLevel tok.tag
      let text :=
        match ts[st.i + 1]? with
        | some inl => textOfInline inl
        | none => ""
      { st with
        i := st.i + 3,
        paras := st.paras ++ [add_paragraph_text text ("Heading " ++ toString (min level 6))] }
    else if tok.type = "paragraph_open" then
      (match ts[st.i + 1]? with
       | some inl =>
         { st with i := st.i + 3, paras := st.paras ++ [add_paragraph_from_inline inl.children] }
       | none =>
         { st with i := st.i + 3, paras := st.paras ++ [add_paragraph_text ("") ("Normal")] })
    else if tok.type = "bullet_list_open" ∨ tok.type = "ordered_list_open" then
      { st with
        i := st.i + 1,
        list_stack := { type := tok.type, indent := st.list_stack.length } :: st.list_stack }
    else if tok.type = "bullet_list_close" ∨ tok.type = "ordered_list_close" then
      { st with i := st.i + 1, list_stack := st.list_stack.tail }
    else if tok.type = "list_item_open" then
      let r := itemScan (ts.drop (st.i + 1)) ("")
      let bullet :=
        match st.list_stack with
        | e :: _ => if e.type = "bullet_list_open" then "•" else "1."
        | [] => "1."
      let indent := pyRepeat ("    ") (st.list_stack.length - 1)
      let para := { add_paragraph_text (indent ++ bullet ++ " " ++ r.2) ("Normal") with
                    line_spacing_pt := some 20 }
      { st with i := st.i + 1 + r.1 + 1, paras := st.paras ++ [para] }
    else if tok.type = "fence" then
      { st with
        i := st.i + 1,
        paras := st.paras ++
          [{ runs := [{ text := rstripNL tok.content, font_name := some ("Consolas") }] }] }
    else if tok.type = "blockquote_open" then
      let r := quoteScan (ts.drop (st.i + 1)) []
      { st with
        i := st.i + 1 + r.1 + 1,
        paras := st.paras ++ r.2.map (fun line => add_paragraph_text ("> " ++ line) ("Normal")) }
    else if tok.type = "hr" then
      { st with i := st.i + 1, paras := st.paras ++ [add_paragraph_text ("——————") ("Normal")] }
    else
      { st with i := st.i + 1 }

/-- The while loop, fuel-indexed: run `step` while the cursor is in
bounds.  Every branch of `step` advances the cursor by at least one, so
fuel equal to the stream length always suffices (proved below). -/
def walk (ts : List Token) : Nat → BState → BState
  | 0, st => st
  | fuel + 1, st => if st.i < ts.length then walk ts fuel (step ts st) else st

/-- The full token walk from the initial state (empty stack, no paragraphs). -/
def build (ts : List Token) : BState :=
  walk ts ts.length { i := 0, list_stack := [], paras := [] }

/-! Style configuration, resolution and application.

The user configuration is the partial structure read from the YAML/JSON
config file: every field optional, every group possibly absent (an
absent dict group behaves exactly like a group with all fields absent,
since the source reads it with cfg.get(group, ) followed by field-wise
.get(key, default)). -/

/-- cfg page group. -/
structure PageCfg where
  width_mm : Option Nat := none
  height_mm : Option Nat := none
deriving DecidableEq, Repr

/-- cfg margins group. -/
structure MarginsCfg where
  top_mm : Option Nat := none
  bottom_mm : Option Nat := none
  left_mm : Option Nat := none
  right_mm : Option Nat := none
deriving DecidableEq, Repr

/-- cfg normal group (base body style). -/
structure NormalCfg where
  size_pt : Option Nat := none
  chinese : Option String := none
  western : Option String := none
  line_spacing_pt : Option Nat := none
deriving DecidableEq, Repr

/-- One heading entry of the cfg headings group. -/
structure HeadingCfg where
  size_pt : Option Nat := none
  align : Option String := none
  family : Option String := none
  space_before_pt : Option Nat := none
  space_after_pt : Option Nat := none
deriving DecidableEq, Repr

/-- cfg headings group, keyed in the source by the style names
Heading 1, Heading 2, Heading 3. -/
structure HeadingsCfg where
  h1 : HeadingCfg := {}
  h2 : HeadingCfg := {}
  h3 : HeadingCfg := {}
deriving DecidableEq, Repr

/-- cfg header group (page header/footer). -/
structure HeaderCfg where
  text : Option String := none
  family : Option String := none
  size_pt : Option Nat := none
deriving DecidableEq, Repr

/-- The whole user style configuration. -/
structure Cfg where
  page : PageCfg := {}
  margins : MarginsCfg := {}
  normal : NormalCfg := {}
  headings : HeadingsCfg := {}
  header : HeaderCfg := {}
deriving DecidableEq, Repr

/-- One fully resolved heading style. -/
structure HeadingSheet where
  family : String
  size_pt : Nat
  align : String
  space_before_pt : Nat
  space_after_pt : Nat
deriving DecidableEq, Repr

/-- The fully resolved style sheet: every field defined. -/
structure StyleSheet where
  page_width_mm : Nat
  page_height_mm : Nat
  top_mm : Nat
  bottom_mm : Nat
  left_mm : Nat
  right_mm : Nat
  body_size_pt : Nat
  body_chinese : String
  body_western : String
  body_line_spacing_pt : Nat
  h1 : HeadingSheet
  h2 : HeadingSheet
  h3 : HeadingSheet
  header_family : String
  header_size_pt : Nat
  header_text : Option String
deriving DecidableEq, Repr

/-- Style resolution: the collection of every cfg.get(key, default) read
performed by _apply_doc_defaults (source lines 52-117).  An absent
configuration (cfg None in the source) resolves as the empty one.  The
header family falls back to the resolved body chinese font; the header
text has no default. -/
def resolve (cfg : Option Cfg) : StyleSheet :=
  let c := cfg.getD {}
  { page_width_mm := c.page.width_mm.getD 210
    page_height_mm := c.page.height_mm.getD 297
    top_mm := c.margins.top_mm.getD 30
    bottom_mm := c.margins.bottom_mm.getD 25
    left_mm := c.margins.left_mm.getD 30
    right_mm := c.margins.right_mm.getD 25
    body_size_pt := c.normal.size_pt.getD 12
    body_chinese := c.normal.chinese.getD ("SimSun")
    body_western := c.normal.western.getD ("Times New Roman")
    body_line_spacing_pt := c.normal.line_spacing_pt.getD 20
    h1 := { family := c.headings.h1.family.getD ("SimHei")
            size_pt := c.headings.h1.size_pt.getD 16
            align := c.headings.h1.align.getD ("CENTER")
            space_before_pt := c.headings.h1.space_before_pt.getD 12
            space_after_pt := c.headings.h1.space_after_pt.getD 12 }
    h2 := { family := c.headings.h2.family.getD ("SimHei")
            size_pt := c.headings.h2.size_pt.getD 14
            align := c.headings.h2.align.getD ("LEFT")
            space_before_pt := c.headings.h2.space_before_pt.getD 12
            space_after_pt := c.headings.h2.space_after_pt.getD 12 }
    h3 := { family := c.headings.h3.family.getD ("SimHei")
            size_pt := c.headings.h3.size_pt.getD 12
            align := c.headings.h3.align.getD ("LEFT")
            space_before_pt := c.headings.h3.space_before_pt.getD 12
            space_after_pt := c.headings.h3.space_after_pt.getD 12 }
    header_family := c.header.family.getD (c.normal.chinese.getD ("SimSun"))
    header_size_pt := c.header.size_pt.getD 9
    header_text := c.header.text }

/-- Paragraph alignment values of python-docx WD_ALIGN_PARAGRAPH. -/
inductive WdAlign where
  | LEFT
  | CENTER
  | RIGHT
  | JUSTIFY
  | DISTRIBUTE
deriving DecidableEq, Repr

/-- The WD_ALIGN_PARAGRAPH member-name lookup used for cfg align keys
(the source reads the class dict; only the enum member names are modeled). -/
def alignFromKey (key : String) : Option WdAlign :=
  if key = "LEFT" then some WdAlign.LEFT
  else if key = "CENTER" then some WdAlign.CENTER
  else if key = "RIGHT" then some WdAlign.RIGHT
  else if key = "JUSTIFY" then some WdAlign.JUSTIFY
  else if key = "DISTRIBUTE" then some WdAlign.DISTRIBUTE
  else none

/-- Section geometry of the document (stored in mm as the source writes Mm values). -/
structure SectionVals where
  page_width_mm : Nat
  page_height_mm : Nat
  top_mm : Nat
  bottom_mm : Nat
  left_mm : Nat
  right_mm : Nat
deriving DecidableEq, Repr

/-- The Normal named style: size, font name, the three rFonts slots the
source writes (eastAsia, ascii, hAnsi) and the fixed line spacing. -/
structure NormalVals where
  size_pt : Nat
  name : String
  east_asia : String
  ascii_font : String
  h_ansi : String
  line_spacing_pt : Nat
deriving DecidableEq, Repr

/-- One named heading style of the document. -/
structure HeadingVals where
  family : String
  size_pt : Nat
  alignment : WdAlign
  space_before_pt : Nat
  space_after_pt : Nat
deriving DecidableEq, Repr

/-- The document-global state mutated by _apply_doc_defaults: single
section geometry, Normal style, the three heading styles, and the header
and footer paragraph lists (sect stands for the python-docx section). -/
structure DocX where
  sect : SectionVals
  normal : NormalVals
  h1 : HeadingVals
  h2 : HeadingVals
  h3 : HeadingVals
  header : List Paragraph
  footer : List Paragraph
deriving DecidableEq, Repr

/-- Python truthiness of an optional string: None and the empty string are falsy. -/
def strTruthy : Option String → Bool
  | none => false
  | some s => s != ""

/-- The style applier _apply_doc_defaults (source lines 47-117) on the
modeled document.  Setting normal.font.size and normal.font.name first
materializes the style rPr and rFonts elements, so the subsequent
eastAsia/ascii/hAnsi writes always fire; they are modeled as plain field
writes.  The header run is only written when
header_text or header_cfg.get("text") is truthy, and is appended to the
first existing header paragraph (or a fresh one).  Footer paragraphs are
re-stamped with the header font and size, never created. -/
def apply_doc_defaults (doc : DocX) (header_text : Option String) (cfg : Option Cfg) : DocX :=
  let r := resolve cfg
  let doc1 := { doc with
    sect := { page_width_mm := r.page_width_mm, page_height_mm := r.page_height_mm,
              top_mm := r.top_mm, bottom_mm := r.bottom_mm,
              left_mm := r.left_mm, right_mm := r.right_mm },
    normal := { size_pt := r.body_size_pt, name := r.body_chinese,
                east_asia := r.body_chinese, ascii_font := r.body_western,
                h_ansi := r.body_western, line_spacing_pt := r.body_line_spacing_pt },
    h1 := { family := r.h1.family, size_pt := r.h1.size_pt,
            alignment := (alignFromKey r.h1.align).getD WdAlign.CENTER,
            space_before_pt := r.h1.space_before_pt, space_after_pt := r.h1.space_after_pt },
    h2 := { family := r.h2.family, size_pt := r.h2.size_pt,
            alignment := (alignFromKey r.h2.align).getD WdAlign.LEFT,
            space_before_pt := r.h2.space_before_pt, space_after_pt := r.h2.space_after_pt },
    h3 := { family := r.h3.family, size_pt := r.h3.size_pt,
            alignment := (alignFromKey r.h3.align).getD WdAlign.LEFT,
            space_before_pt := r.h3.space_before_pt, space_after_pt := r.h3.space_after_pt } }
  let doc2 :=
    if strTruthy header_text || strTruthy r.header_text then
      let htxt := if strTruthy header_text then header_text.getD ("") else r.header_text.getD ("")
      let newRun : Run := { text := htxt, font_name := some r.header_family,
                            font_size_pt := some r.header_size_pt }
      { doc1 with header :=
          (match doc1.header with
           | [] => [{ runs := [newRun] }]
           | p :: rest => ({ p with runs := p.runs ++ [newRun] }) :: rest) }
    else doc1
  { doc2 with footer := doc2.footer.map (fun p =>
      { p with runs := p.runs.map (fun rn =>
          { rn with font_name := some r.header_family, font_size_pt := some r.header_size_pt }) }) }

/-- A fresh python-docx Document before any styling: header and footer
each hold a single empty paragraph; the concrete default geometry and
style values play no role in the claims. -/
def freshDoc : DocX :=
  { sect := { page_width_mm := 216, page_height_mm := 279, top_mm := 25,
              bottom_mm := 25, left_mm := 32, right_mm := 32 },
    normal := { size_pt := 11, name := "Calibri", east_asia := "Calibri",
                ascii_font := "Calibri", h_ansi := "Calibri", line_spacing_pt := 0 },
    h1 := { family := "Calibri", size_pt := 16, alignment := WdAlign.LEFT,
            space_before_pt := 12, space_after_pt := 0 },
    h2 := { family := "Calibri", size_pt := 13, alignment := WdAlign.LEFT,
            space_before_pt := 2, space_after_pt := 0 },
    h3 := { family := "Calibri", size_pt := 12, alignment := WdAlign.LEFT,
            space_before_pt := 2, space_after_pt := 0 },
    header := [{ runs := [] }],
    footer := [{ runs := [] }] }

/-! Specification-side notions used to state the claims: the spec's
reading of stripping, indentation, item text, the balancedness predicate
of claim C3 as literally stated, and the well-formed stream grammar. -/

/-- Spec-side: strip exactly one trailing line terminator (claim C6). -/
def stripOneTerminator (s : String) : String :=
  if s.data.getLast? = some '\n' then String.mk s.data.dropLast else s

/-- Spec-side: a string of n literal spaces. -/
def spaces (n : Nat) : String :=
  String.mk (List.replicate n ' ')

/-- Spec-side: concatenated plain text of all child spans, no filtering. -/
def joinAll (ch : Option (List Span)) : String :=
  strJoin ((ch.getD []).map (fun c => c.content))

/-- Spec-side: the item text of claim C2, the concatenated plain text of
the last inline token of the item span (empty when there is none). -/
def specLastText (span : List Token) : String :=
  match (span.filter (fun u => u.type == "inline")).getLast? with
  | some u => joinAll u.children
  | none => ""

/-- Spec-side: the blockquote lines of claim C7 (amended): raw content of
every inline token with nonempty content, in order. -/
def quoteLines (span : List Token) : List String :=
  (span.filter (fun u => u.type == "inline" && u.content != "")).map (fun u => u.content)

/-- The visible text of a paragraph: its runs' texts concatenated. -/
def paraText (p : Paragraph) : String :=
  strJoin (p.runs.map (fun r => r.text))

/-- The text accumulator of the list-item scan, taken on its own: the
joined child text of the last inline token with truthy children. -/
def itemAcc : List Token → String → String
  | [], acc => acc
  | tok :: rest, acc =>
    itemAcc rest
      (if tok.type = "inline" ∧ childrenTruthy tok = true then joinContents tok.children else acc)

/-- The closing token type paired with an opening token type, if any. -/
def closerOf (s : String) : Option String :=
  if s = "heading_open" then some ("heading_close")
  else if s = "paragraph_open" then some ("paragraph_close")
  else if s = "bullet_list_open" then some ("bullet_list_close")
  else if s = "ordered_list_open" then some ("ordered_list_close")
  else if s = "list_item_open" then some ("list_item_close")
  else if s = "blockquote_open" then some ("blockquote_close")
  else none

/-- Whether a token type is one of the paired closing types. -/
def isCloser (s : String) : Bool :=
  s == "heading_close" || s == "paragraph_close" || s == "bullet_list_close" ||
  s == "ordered_list_close" || s == "list_item_close" || s == "blockquote_close"

/-- Dyck checker over all paired token kinds: every open has its matching
close, properly nested.  This is claim C3's stated hypothesis of a fully
balanced token stream. -/
def balancedFrom : List Token → List String → Bool
  | [], stk => stk.isEmpty
  | t :: rest, stk =>
    match closerOf t.type with
    | some _ => balancedFrom rest (t.type :: stk)
    | none =>
      if isCloser t.type then
        (match stk with
         | top :: stk2 => (closerOf top == some t.type) && balancedFrom rest stk2
         | [] => false)
      else balancedFrom rest stk

/-- A fully balanced token stream in the sense of claim C3 as stated. -/
def BalancedPairs (ts : List Token) : Prop :=
  balancedFrom ts [] = true

instance (ts : List Token) : Decidable (BalancedPairs ts) :=
  inferInstanceAs (Decidable (balancedFrom ts [] = true))

/-- Token types with structural meaning to the walker's nesting; an atom
token of a well-formed stream is any token of another type. -/
def structuralTypes : List String :=
  ["heading_open", "heading_close", "paragraph_open", "paragraph_close",
   "bullet_list_open", "bullet_list_close", "ordered_list_open", "ordered_list_close",
   "list_item_open", "list_item_close", "blockquote_open", "blockquote_close"]

/-- Whether a token type may stand alone in a well-formed stream. -/
def isAtomType (s : String) : Bool :=
  !(structuralTypes.contains s)

/-- Dyck weight of a token: +1 for a list open, -1 for a list close,
0 otherwise.  Only list opens and closes move the builder's stack. -/
def w (t : Token) : Int :=
  if t.type = "bullet_list_open" ∨ t.type = "ordered_list_open" then 1
  else if t.type = "bullet_list_close" ∨ t.type = "ordered_list_close" then -1
  else 0

/-- Sum of Dyck weights over a token list. -/
def sumw : List Token → Int
  | [] => 0
  | t :: rest => w t + sumw rest

/-- Index of the first token of the given type (length when absent). -/
def scanIdx (stop : String) : List Token → Nat
  | [] => 0
  | t :: rest => if t.type = stop then 0 else scanIdx stop rest + 1

/-- Well-formed, fully balanced token streams as the external markdown
parser produces them.  WF true ts: ts is a sequence of blocks (atoms,
heading and paragraph triples, balanced lists, balanced blockquotes);
WF false ts: ts is a sequence of balanced list items whose bodies are
block sequences.  Nesting is unbounded. -/
inductive WF : Bool → List Token → Prop where
  | nil (b : Bool) : WF b []
  | atom (t : Token) (rest : List Token) (h : isAtomType t.type = true)
      (hr : WF true rest) : WF true (t :: rest)
  | heading (t u v : Token) (rest : List Token)
      (h1 : t.type = "heading_open") (h2 : u.type = "inline") (h3 : v.type = "heading_close")
      (hr : WF true rest) : WF true (t :: u :: v :: rest)
  | para (t u v : Token) (rest : List Token)
      (h1 : t.type = "paragraph_open") (h2 : u.type = "inline")
      (h3 : v.type = "paragraph_close")
      (hr : WF true rest) : WF true (t :: u :: v :: rest)
  | blist (o c : Token) (items rest : List Token)
      (ho : o.type = "bullet_list_open") (hc : c.type = "bullet_list_close")
      (hi : WF false items) (hr : WF true rest) : WF true (o :: (items ++ c :: rest))
  | olist (o c : Token) (items rest : List Token)
      (ho : o.type = "ordered_list_open") (hc : c.type = "ordered_list_close")
      (hi : WF false items) (hr : WF true rest) : WF true (o :: (items ++ c :: rest))
  | quote (o c : Token) (inner rest : List Token)
      (ho : o.type = "blockquote_open") (hc : c.type = "blockquote_close")
      (hi : WF true inner) (hr : WF true rest) : WF true (o :: (inner ++ c :: rest))
  | item (l c : Token) (body rest : List Token)
      (hl : l.type = "list_item_open") (hc : c.type = "list_item_close")
      (hb : WF true body) (hr : WF false rest) : WF false (l :: (body ++ c :: rest))

/-- Facts about the suffix after a list-item-open in a well-formed
stream: the item scan stops at a list-item-close inside the suffix, and
the scanned region carries at least as many list opens as closes. -/
def ItemSpanFacts (B : List Token) : Prop :=
  ∃ k, scanIdx ("list_item_close") B = k ∧ k < B.length
    ∧ (∃ u, B[k]? = some u ∧ u.type = "list_item_close")
    ∧ 0 ≤ sumw (B.take k)

/-- Facts about the suffix after a blockquote-open in a well-formed
stream, mirror image of ItemSpanFacts for the blockquote scan. -/
def QuoteSpanFacts (B : List Token) : Prop :=
  ∃ k, scanIdx ("blockquote_close") B = k ∧ k < B.length
    ∧ (∃ u, B[k]? = some u ∧ u.type = "blockquote_close")
    ∧ 0 ≤ sumw (B.take k)

/-- Facts about the suffix after a heading-open or paragraph-open in a
well-formed stream: the next two tokens exist and carry no list weight,
so the blind skip of three cannot jump over a list open or close. -/
def TripleFacts (B : List Token) : Prop :=
  ∃ u v B2, B = u :: v :: B2 ∧ w u = 0 ∧ w v = 0

/-- The combined per-position facts of a well-formed stream, for a token
t whose suffix (the tokens after it) is B. -/
def SuffixFacts (t : Token) (B : List Token) : Prop :=
  (t.type = "list_item_open" → ItemSpanFacts B)
  ∧ (t.type = "blockquote_open" → QuoteSpanFacts B)
  ∧ (t.type = "heading_open" ∨ t.type = "paragraph_open" → TripleFacts B)

/-! Concrete token streams used by the claims. -/

/-- A token with only a type tag. -/
def mkTok (t : String) : Token :=
  { type := t }

/-- An inline token holding a single plain-text child span. -/
def inlineText (s : String) : Token :=
  { type := "inline", children := some [{ type := "text", content := s }], content := s }

/-- The single-paragraph stream of claim C4. -/
def tsHello : List Token :=
  [mkTok ("paragraph_open"), inlineText ("Hello"), mkTok ("paragraph_close")]

/-- The heading stream of claim C5. -/
def tsTitle : List Token :=
  [{ type := "heading_open", tag := "h2" }, inlineText ("Title"),
   { type := "heading_close", tag := "h2" }]

/-- The nested-list stream of spec section 8 (claim C2), with the item
texts carried by inline tokens inside the item spans. -/
def tsNested : List Token :=
  [mkTok ("bullet_list_open"),
   mkTok ("list_item_open"), inlineText ("a"), mkTok ("list_item_close"),
   mkTok ("bullet_list_open"),
   mkTok ("list_item_open"), inlineText ("b"), mkTok ("list_item_close"),
   mkTok ("bullet_list_close"),
   mkTok ("list_item_close"),
   mkTok ("bullet_list_close")]

/-- A fence token whose content ends in two line terminators (claim C6). -/
def tsFence2 : List Token :=
  [{ type := "fence", content := "x=1\n\n" }]

/-- A balanced blockquote holding one inline token with empty content (claim C7). -/
def tsQuoteEmpty : List Token :=
  [mkTok ("blockquote_open"), mkTok ("paragraph_open"),
   { type := "inline", children := some [], content := "" },
   mkTok ("paragraph_close"), mkTok ("blockquote_close")]

/-- A fully balanced stream (in the claim C3 sense) on which the walker
leaves a nonempty stack: the paragraph skip of three jumps over the
paragraph close and the list close. -/
def tsUnclosed : List Token :=
  [mkTok ("bullet_list_open"), mkTok ("paragraph_open"),
   mkTok ("paragraph_close"), mkTok ("bullet_list_close")]

/-- A doubly nested balanced list stream used as the claim C3 witness. -/
def tsDeep : List Token :=
  [mkTok ("bullet_list_open"),
   mkTok ("list_item_open"),
   mkTok ("ordered_list_open"),
   mkTok ("list_item_open"), inlineText ("x"), mkTok ("list_item_close"),
   mkTok ("ordered_list_close"),
   mkTok ("list_item_close"),
   mkTok ("bullet_list_close")]

/-! Theorems.  First generic helper lemmas, then one theorem per claim
(with its witness or counterexample). -/

theorem strData_append (a b : String) : (a ++ b).data = a.data ++ b.data := by
  cases a
  cases b
  rfl

theorem strMk_append (a b : List Char) : String.mk (a ++ b) = String.mk a ++ String.mk b := rfl

/-- C1: style resolution is total (a Lean function on every optional
configuration) and field-by-field it returns the user-supplied value when
present, and the fixed built-in default otherwise: A4 210mm by 297mm,
margins 30/25/30/25mm, body SimSun and Times New Roman at 12pt with 20pt
fixed line spacing, SimHei headings at 16/14/12pt with their alignment
keys and 12pt spacing, header/footer at 9pt with the font falling back to
the resolved body chinese font, and no default header text.  No default
ever overrides a supplied value. -/
theorem C1_resolve_total (cfg : Cfg) :
    resolve none = resolve (some {})
    ∧ (∀ v, cfg.page.width_mm = some v → (resolve (some cfg)).page_width_mm = v)
    ∧ (cfg.page.width_mm = none → (resolve (some cfg)).page_width_mm = 210)
    ∧ (∀ v, cfg.page.height_mm = some v → (resolve (some cfg)).page_height_mm = v)
    ∧ (cfg.page.height_mm = none → (resolve (some cfg)).page_height_mm = 297)
    ∧ (∀ v, cfg.margins.top_mm = some v → (resolve (some cfg)).top_mm = v)
    ∧ (cfg.margins.top_mm = none → (resolve (some cfg)).top_mm = 30)
    ∧ (∀ v, cfg.margins.bottom_mm = some v → (resolve (some cfg)).bottom_mm = v)
    ∧ (cfg.margins.bottom_mm = none → (resolve (some cfg)).bottom_mm = 25)
    ∧ (∀ v, cfg.margins.left_mm = some v → (resolve (some cfg)).left_mm = v)
    ∧ (cfg.margins.left_mm = none → (resolve (some cfg)).left_mm = 30)
    ∧ (∀ v, cfg.margins.right_mm = some v → (resolve (some cfg)).right_mm = v)
    ∧ (cfg.margins.right_mm = none → (resolve (some cfg)).right_mm = 25)
    ∧ (∀ v, cfg.normal.size_pt = some v → (resolve (some cfg)).body_size_pt = v)
    ∧ (cfg.normal.size_pt = none → (resolve (some cfg)).body_size_pt = 12)
    ∧ (∀ v, cfg.normal.chinese = some v → (resolve (some cfg)).body_chinese = v)
    ∧ (cfg.normal.chinese = none → (resolve (some cfg)).body_chinese = "SimSun")
    ∧ (∀ v, cfg.normal.western = some v → (resolve (some cfg)).body_western = v)
    ∧ (cfg.normal.western = none → (resolve (some cfg)).body_western = "Times New Roman")
    ∧ (∀ v, cfg.normal.line_spacing_pt = some v → (resolve (some cfg)).body_line_spacing_pt = v)
    ∧ (cfg.normal.line_spacing_pt = none → (resolve (some cfg)).body_line_spacing_pt = 20)
    ∧ (∀ v, cfg.headings.h1.family = some v → (resolve (some cfg)).h1.family = v)
    ∧ (cfg.headings.h1.family = none → (resolve (some cfg)).h1.family = "SimHei")
    ∧ (∀ v, cfg.headings.h1.size_pt = some v → (resolve (some cfg)).h1.size_pt = v)
    ∧ (cfg.headings.h1.size_pt = none → (resolve (some cfg)).h1.size_pt = 16)
    ∧ (∀ v, cfg.headings.h1.align = some v → (resolve (some cfg)).h1.align = v)
    ∧ (cfg.headings.h1.align = none → (resolve (some cfg)).h1.align = "CENTER")
    ∧ (∀ v, cfg.headings.h1.space_before_pt = some v → (resolve (some cfg)).h1.space_before_pt = v)
    ∧ (cfg.headings.h1.space_before_pt = none → (resolve (some cfg)).h1.space_before_pt = 12)
    ∧ (∀ v, cfg.headings.h1.space_after_pt = some v → (resolve (some cfg)).h1.space_after_pt = v)
    ∧ (cfg.headings.h1.space_after_pt = none → (resolve (some cfg)).h1.space_after_pt = 12)
    ∧ (∀ v, cfg.headings.h2.family = some v → (resolve (some cfg)).h2.family = v)
    ∧ (cfg.headings.h2.family = none → (resolve (some cfg)).h2.family = "SimHei")
    ∧ (∀ v, cfg.headings.h2.size_pt = some v → (resolve (some cfg)).h2.size_pt = v)
    ∧ (cfg.headings.h2.size_pt = none → (resolve (some cfg)).h2.size_pt = 14)
    ∧ (∀ v, cfg.headings.h2.align = some v → (resolve (some cfg)).h2.align = v)
    ∧ (cfg.headings.h2.align = none → (resolve (some cfg)).h2.align = "LEFT")
    ∧ (∀ v, cfg.headings.h2.space_before_pt = some v → (resolve (some cfg)).h2.space_before_pt = v)
    ∧ (cfg.headings.h2.space_before_pt = none → (resolve (some cfg)).h2.space_before_pt = 12)
    ∧ (∀ v, cfg.headings.h2.space_after_pt = some v → (resolve (some cfg)).h2.space_after_pt = v)
    ∧ (cfg.headings.h2.space_after_pt = none → (resolve (some cfg)).h2.space_after_pt = 12)
    ∧ (∀ v, cfg.headings.h3.family = some v → (resolve (some cfg)).h3.family = v)
    ∧ (cfg.headings.h3.family = none → (resolve (some cfg)).h3.family = "SimHei")
    ∧ (∀ v, cfg.headings.h3.size_pt = some v → (resolve (some cfg)).h3.size_pt = v)
    ∧ (cfg.headings.h3.size_pt = none → (resolve (some cfg)).h3.size_pt = 12)
    ∧ (∀ v, cfg.headings.h3.align = some v → (resolve (some cfg)).h3.align = v)
    ∧ (cfg.headings.h3.align = none → (resolve (some cfg)).h3.align = "LEFT")
    ∧ (∀ v, cfg.headings.h3.space_before_pt = some v → (resolve (some cfg)).h3.space_before_pt = v)
    ∧ (cfg.headings.h3.space_before_pt = none → (resolve (some cfg)).h3.space_before_pt = 12)
    ∧ (∀ v, cfg.headings.h3.space_after_pt = some v → (resolve (some cfg)).h3.space_after_pt = v)
    ∧ (cfg.headings.h3.space_after_pt = none → (resolve (some cfg)).h3.space_after_pt = 12)
    ∧ (∀ v, cfg.header.family = some v → (resolve (some cfg)).header_family = v)
    ∧ (cfg.header.family = none →
        (resolve (some cfg)).header_family = (resolve (some cfg)).body_chinese)
    ∧ (∀ v, cfg.header.size_pt = some v → (resolve (some cfg)).header_size_pt = v)
    ∧ (cfg.header.size_pt = none → (resolve (some cfg)).header_size_pt = 9)
    ∧ (resolve (some cfg)).header_text = cfg.header.text := by
  refine ⟨rfl, ?_⟩
  repeat' apply And.intro
  all_goals intros
  all_goals simp_all [resolve]

/-- Witness for C1 at a concrete partial configuration: a supplied page
width survives, an omitted margin gets its default, and the omitted
header font falls back to the supplied body chinese font. -/
theorem C1_resolve_total_witness :
    (resolve (some { page := { width_mm := some 200 },
                     normal := { chinese := some ("KaiTi") } })).page_width_mm = 200
    ∧ (resolve (some { page := { width_mm := some 200 },
                       normal := { chinese := some ("KaiTi") } })).top_mm = 30
    ∧ (resolve (some { page := { width_mm := some 200 },
                       normal := { chinese := some ("KaiTi") } })).header_family = "KaiTi" := by
  have h := C1_resolve_total
    { page := { width_mm := some 200 }, normal := { chinese := some ("KaiTi") } }
  obtain ⟨h0, hpw, hpw0, hph, hph0, htm, htm0, hbm, hbm0, hlm, hlm0, hrm, hrm0,
    hns, hns0, hnc, hnc0, hnw, hnw0, hnl, hnl0,
    h1f, h1f0, h1s, h1s0, h1a, h1a0, h1b, h1b0, h1after, h1after0,
    h2f, h2f0, h2s, h2s0, h2a, h2a0, h2b, h2b0, h2after, h2after0,
    h3f, h3f0, h3s, h3s0, h3a, h3a0, h3b, h3b0, h3after, h3after0,
    hhf, hhf0, hhs, hhs0, hht⟩ := h
  exact ⟨hpw 200 rfl, htm0 rfl, (hhf0 rfl).trans (hnc ("KaiTi") rfl)⟩

theorem apply_sect (d : DocX) (ht : Option String) (cfg : Option Cfg) :
    (apply_doc_defaults d ht cfg).sect =
      { page_width_mm := (resolve cfg).page_width_mm,
        page_height_mm := (resolve cfg).page_height_mm,
        top_mm := (resolve cfg).top_mm, bottom_mm := (resolve cfg).bottom_mm,
        left_mm := (resolve cfg).left_mm, right_mm := (resolve cfg).right_mm } := by
  unfold apply_doc_defaults
  dsimp only
  split <;> rfl

theorem apply_normal (d : DocX) (ht : Option String) (cfg : Option Cfg) :
    (apply_doc_defaults d ht cfg).normal =
      { size_pt := (resolve cfg).body_size_pt, name := (resolve cfg).body_chinese,
        east_asia := (resolve cfg).body_chinese, ascii_font := (resolve cfg).body_western,
        h_ansi := (resolve cfg).body_western,
        line_spacing_pt := (resolve cfg).body_line_spacing_pt } := by
  unfold apply_doc_defaults
  dsimp only
  split <;> rfl

theorem apply_h1 (d : DocX) (ht : Option String) (cfg : Option Cfg) :
    (apply_doc_defaults d ht cfg).h1 =
      { family := (resolve cfg).h1.family, size_pt := (resolve cfg).h1.size_pt,
        alignment := (alignFromKey (resolve cfg).h1.align).getD WdAlign.CENTER,
        space_before_pt := (resolve cfg).h1.space_before_pt,
        space_after_pt := (resolve cfg).h1.space_after_pt } := by
  unfold apply_doc_defaults
  dsimp only
  split <;> rfl

theorem apply_h2 (d : DocX) (ht : Option String) (cfg : Option Cfg) :
    (apply_doc_defaults d ht cfg).h2 =
      { family := (resolve cfg).h2.family, size_pt := (resolve cfg).h2.size_pt,
        alignment := (alignFromKey (resolve cfg).h2.align).getD WdAlign.LEFT,
        space_before_pt := (resolve cfg).h2.space_before_pt,
        space_after_pt := (resolve cfg).h2.space_after_pt } := by
  unfold apply_doc_defaults
  dsimp only
  split <;> rfl

theorem apply_h3 (d : DocX) (ht : Option String) (cfg : Option Cfg) :
    (apply_doc_defaults d ht cfg).h3 =
      { family := (resolve cfg).h3.family, size_pt := (resolve cfg).h3.size_pt,
        alignment := (alignFromKey (resolve cfg).h3.align).getD WdAlign.LEFT,
        space_before_pt := (resolve cfg).h3.space_before_pt,
        space_after_pt := (resolve cfg).h3.space_after_pt } := by
  unfold apply_doc_defaults
  dsimp only
  split <;> rfl

/-- C9: the style applier is deterministic and idempotent on the style
values it writes: applied to any two documents it produces the same
section geometry and the same Normal and Heading 1-3 named-style values,
and a second application to the same document leaves all of them as
after the first (later calls simply overwrite). -/
theorem C9_apply_deterministic_idempotent (cfg : Option Cfg) (ht : Option String)
    (d1 d2 d : DocX) :
    ((apply_doc_defaults d1 ht cfg).sect = (apply_doc_defaults d2 ht cfg).sect
      ∧ (apply_doc_defaults d1 ht cfg).normal = (apply_doc_defaults d2 ht cfg).normal
      ∧ (apply_doc_defaults d1 ht cfg).h1 = (apply_doc_defaults d2 ht cfg).h1
      ∧ (apply_doc_defaults d1 ht cfg).h2 = (apply_doc_defaults d2 ht cfg).h2
      ∧ (apply_doc_defaults d1 ht cfg).h3 = (apply_doc_defaults d2 ht cfg).h3)
    ∧ ((apply_doc_defaults (apply_doc_defaults d ht cfg) ht cfg).sect
          = (apply_doc_defaults d ht cfg).sect
      ∧ (apply_doc_defaults (apply_doc_defaults d ht cfg) ht cfg).normal
          = (apply_doc_defaults d ht cfg).normal
      ∧ (apply_doc_defaults (apply_doc_defaults d ht cfg) ht cfg).h1
          = (apply_doc_defaults d ht cfg).h1
      ∧ (apply_doc_defaults (apply_doc_defaults d ht cfg) ht cfg).h2
          = (apply_doc_defaults d ht cfg).h2
      ∧ (apply_doc_defaults (apply_doc_defaults d ht cfg) ht cfg).h3
          = (apply_doc_defaults d ht cfg).h3) :=
  ⟨⟨(apply_sect d1 ht cfg).trans (apply_sect d2 ht cfg).symm,
    (apply_normal d1 ht cfg).trans (apply_normal d2 ht cfg).symm,
    (apply_h1 d1 ht cfg).trans (apply_h1 d2 ht cfg).symm,
    (apply_h2 d1 ht cfg).trans (apply_h2 d2 ht cfg).symm,
    (apply_h3 d1 ht cfg).trans (apply_h3 d2 ht cfg).symm⟩,
   ⟨(apply_sect _ ht cfg).trans (apply_sect d ht cfg).symm,
    (apply_normal _ ht cfg).trans (apply_normal d ht cfg).symm,
    (apply_h1 _ ht cfg).trans (apply_h1 d ht cfg).symm,
    (apply_h2 _ ht cfg).trans (apply_h2 d ht cfg).symm,
    (apply_h3 _ ht cfg).trans (apply_h3 d ht cfg).symm⟩⟩

/-- Counterexample to C8 as stated: an overrideHeaderText IS given (the
empty string) and header_footer.text is set to X, yet the written header
run carries X, not the given override: Python truthiness makes an empty
override lose precedence. -/
theorem C8_header_counterexample :
    (apply_doc_defaults freshDoc (some ("")) (some { header := { text := some ("X") } })).header
      = [{ runs := [{ text := "X", font_name := some ("SimSun"), font_size_pt := some 9 }] }]
    ∧ ¬ (apply_doc_defaults freshDoc (some ("")) (some { header := { text := some ("X") } })).header
      = [{ runs := [{ text := "", font_name := some ("SimSun"), font_size_pt := some 9 }] }] := by
  constructor
  · decide
  · decide

/-- C8 (amended): when the applier is given a NON-EMPTY overrideHeaderText
it takes precedence over the style sheet's header text; when only a
non-empty header_footer.text is present that text is used; when neither a
non-empty override nor a non-empty sheet text is present no header run is
written; any run written uses the resolved header/footer font face and
size (9pt default), not the body style. -/
theorem C8_header_amended (cfg : Option Cfg) (ht : Option String) (d : DocX) (p0 : Paragraph)
    (hd : d.header = [p0]) :
    (strTruthy ht = true →
      (apply_doc_defaults d ht cfg).header
        = [{ p0 with runs := p0.runs ++
            [{ text := ht.getD (""), font_name := some ((resolve cfg).header_family),
               font_size_pt := some ((resolve cfg).header_size_pt) }] }])
    ∧ (strTruthy ht = false → strTruthy (resolve cfg).header_text = true →
      (apply_doc_defaults d ht cfg).header
        = [{ p0 with runs := p0.runs ++
            [{ text := (resolve cfg).header_text.getD (""),
               font_name := some ((resolve cfg).header_family),
               font_size_pt := some ((resolve cfg).header_size_pt) }] }])
    ∧ (strTruthy ht = false → strTruthy (resolve cfg).header_text = false →
      (apply_doc_defaults d ht cfg).header = d.header)
    ∧ (resolve none).header_size_pt = 9
    ∧ (resolve none).body_size_pt = 12 := by
  refine ⟨?_, ?_, ?_, rfl, rfl⟩
  · intro h
    unfold apply_doc_defaults
    simp [h, hd]
  · intro h h2
    unfold apply_doc_defaults
    simp [h, h2, hd]
  · intro h h2
    unfold apply_doc_defaults
    simp [h, h2, hd]

/-- Witness for C8 (amended): a non-empty override written onto a fresh
document with its resolved default header font and size. -/
theorem C8_header_amended_witness :
    (apply_doc_defaults freshDoc (some ("W")) none).header
      = [{ runs := [{ text := "W", font_name := some ("SimSun"), font_size_pt := some 9 }] }] := by
  have h := (C8_header_amended none (some ("W")) freshDoc { runs := [] } rfl).1 rfl
  simpa using h

theorem str_empty_append (s : String) : "" ++ s = s := by
  cases s
  show String.mk ([] ++ _) = _
  rw [List.nil_append]

theorem str_append_empty (s : String) : s ++ "" = s := by
  cases s
  show String.mk (_ ++ []) = _
  rw [List.append_nil]

theorem strJoin_filter_content (l : List Span) :
    strJoin ((l.filter (fun c => c.content != "")).map (fun c => c.content))
      = strJoin (l.map (fun c => c.content)) := by
  induction l with
  | nil => rfl
  | cons c rest ih =>
    by_cases h : c.content = ""
    · simp only [List.filter_cons, h, List.map_cons, strJoin]
      simpa [h, str_empty_append] using ih
    · simp only [List.filter_cons, List.map_cons, strJoin, bne_iff_ne, ne_eq, h,
        not_false_eq_true, if_true, ite_true]
      rw [ih]

theorem joinContents_eq_joinAll (ch : Option (List Span)) : joinContents ch = joinAll ch := by
  unfold joinContents joinAll
  exact strJoin_filter_content _

theorem textOfInline_eq_joinAll (t : Token) : textOfInline t = joinAll t.children := by
  unfold textOfInline childrenTruthy
  rcases h : t.children with _ | l
  · simp [h, joinAll, strJoin]
  · rcases l with _ | ⟨c, cs⟩
    · simp [h, joinAll, strJoin]
    · simp [h, joinContents_eq_joinAll]

theorem paraText_apt (t sty : String) : paraText (add_paragraph_text t sty) = t := by
  unfold paraText add_paragraph_text
  by_cases h : t = ""
  · simp [h, strJoin]
  · simp [h, strJoin, str_append_empty]

/-- C4: a paragraph-open whose following inline token carries child spans
produces exactly one paragraph whose runs follow the inline rendering
mapping (a plain run per text span, a monospace run per inline-code span,
a newline run per soft/hard break, nothing for emphasis/strong/link
markers, a plain run per other span with a nonempty text payload), and
the cursor advances by three; the stream of a single Hello paragraph
yields exactly one paragraph whose sole run's text is Hello. -/
theorem C4_paragraph_inline (ts : List Token) (st : BState) (tok inl : Token) (l : List Span)
    (htok : ts[st.i]? = some tok) (hty : tok.type = "paragraph_open")
    (hinl : ts[st.i + 1]? = some inl) (hch : inl.children = some l) :
    ((step ts st).paras = st.paras ++ [{ runs := runsOfChildren l }]
      ∧ (step ts st).i = st.i + 3
      ∧ (step ts st).list_stack = st.list_stack)
    ∧ (∀ c : Span, c.type = "text" → spanRuns c = [{ text := c.content }])
    ∧ (∀ c : Span, c.type = "code_inline" →
        spanRuns c = [{ text := c.content, font_name := some ("Consolas") }])
    ∧ (∀ c : Span, c.type = "softbreak" ∨ c.type = "hardbreak" → spanRuns c = [{ text := "\n" }])
    ∧ (∀ c : Span, c.type = "em_open" ∨ c.type = "em_close" ∨ c.type = "strong_open"
        ∨ c.type = "strong_close" ∨ c.type = "link_open" ∨ c.type = "link_close" →
        spanRuns c = [])
    ∧ (∀ c : Span, c.type ≠ "text" → c.type ≠ "code_inline" → c.type ≠ "softbreak" →
        c.type ≠ "hardbreak" → c.type ≠ "em_open" → c.type ≠ "em_close" →
        c.type ≠ "strong_open" → c.type ≠ "strong_close" → c.type ≠ "link_open" →
        c.type ≠ "link_close" → c.content ≠ "" → spanRuns c = [{ text := c.content }])
    ∧ (∀ (c : Span) (rest2 : List Span),
        runsOfChildren (c :: rest2) = spanRuns c ++ runsOfChildren rest2)
    ∧ (build tsHello).paras = [{ runs := [{ text := "Hello" }] }] := by
  have hstep : step ts st =
      { st with i := st.i + 3, paras := st.paras ++ [add_paragraph_from_inline inl.children] } := by
    simp [step, htok, hty, hinl]
  refine ⟨⟨?_, ?_, ?_⟩, ?_, ?_, ?_, ?_, ?_, fun c r => rfl, by decide⟩
  · rw [hstep]
    simp [add_paragraph_from_inline, hch]
  · rw [hstep]
  · rw [hstep]
  · intro c h
    simp [spanRuns, h]
  · intro c h
    simp [spanRuns, h]
  · intro c h
    rcases h with h | h <;> simp [spanRuns, h]
  · intro c h
    rcases h with h | h | h | h | h | h <;> simp [spanRuns, h]
  · intro c h1 h2 h3 h4 h5 h6 h7 h8 h9 h10 h11
    simp [spanRuns, h1, h2, h3, h4, h5, h6, h7, h8, h9, h10, h11]

/-- Witness for C4 at the Hello stream, cursor at zero. -/
theorem C4_paragraph_inline_witness :
    (step tsHello { i := 0, list_stack := [], paras := [] }).paras
        = [{ runs := runsOfChildren [{ type := "text", content := "Hello" }] }]
      ∧ (step tsHello { i := 0, list_stack := [], paras := [] }).i = 3 := by
  have h := (C4_paragraph_inline tsHello { i := 0, list_stack := [], paras := [] }
    (mkTok ("paragraph_open")) (inlineText ("Hello")) [{ type := "text", content := "Hello" }]
    rfl rfl rfl rfl).1
  exact ⟨by simpa using h.1, h.2.1⟩

/-- C5: a heading-open of level L followed by an inline token and a
heading-close produces exactly one block styled Heading min(L,6) whose
text is the concatenation of the plain text of all the inline token's
child spans (payload-free spans contribute nothing), and the cursor
advances by three; the Title stream yields one Heading 2 block with text
Title. -/
theorem C5_heading_block (ts : List Token) (st : BState) (tok inl cls : Token)
    (htok : ts[st.i]? = some tok) (hty : tok.type = "heading_open")
    (hinl : ts[st.i + 1]? = some inl) (hcls : ts[st.i + 2]? = some cls)
    (hclsty : cls.type = "heading_close") :
    (∃ p, (step ts st).paras = st.paras ++ [p]
      ∧ paraText p = joinAll inl.children
      ∧ p.style = "Heading " ++ toString (min (headingLevel tok.tag) 6))
    ∧ (step ts st).i = st.i + 3
    ∧ (step ts st).list_stack = st.list_stack
    ∧ (build tsTitle).paras = [{ runs := [{ text := "Title" }], style := "Heading 2" }] := by
  have hstep : step ts st =
      { st with
        i := st.i + 3,
        paras := st.paras ++ [add_paragraph_text (textOfInline inl)
          ("Heading " ++ toString (min (headingLevel tok.tag) 6))] } := by
    simp [step, htok, hty, hinl]
  refine ⟨⟨add_paragraph_text (textOfInline inl)
      ("Heading " ++ toString (min (headingLevel tok.tag) 6)), ?_, ?_, rfl⟩, ?_, ?_, by decide⟩
  · rw [hstep]
  · rw [paraText_apt, textOfInline_eq_joinAll]
  · rw [hstep]
  · rw [hstep]

/-- Witness for C5 at the Title stream, cursor at zero. -/
theorem C5_heading_block_witness :
    (∃ p, (step tsTitle { i := 0, list_stack := [], paras := [] }).paras = [p]
      ∧ paraText p = "Title" ∧ p.style = "Heading 2")
    ∧ (step tsTitle { i := 0, list_stack := [], paras := [] }).i = 3 := by
  have h := C5_heading_block tsTitle { i := 0, list_stack := [], paras := [] }
    { type := "heading_open", tag := "h2" } (inlineText ("Title"))
    { type := "heading_close", tag := "h2" } rfl rfl rfl rfl rfl
  obtain ⟨⟨p, hp, hptext, hpstyle⟩, hi, _, _⟩ := h
  exact ⟨⟨p, by simpa using hp, by simpa using hptext, by simpa using hpstyle⟩, hi⟩

theorem head?_dropWhile_not {α : Type} (p : α → Bool) (l : List α) (a : α)
    (h : (l.dropWhile p).head? = some a) : p a = false := by
  induction l with
  | nil => simp [List.dropWhile] at h
  | cons x rest ih =>
    rw [List.dropWhile_cons] at h
    by_cases hx : p x = true
    · rw [if_pos hx] at h
      exact ih h
    · rw [if_neg hx] at h
      simp at h
      subst h
      simpa using hx

/-- Counterexample to C6 as stated: a fence whose content ends in two
line terminators loses both, not exactly one. -/
theorem C6_fence_counterexample :
    (build tsFence2).paras
      = [{ runs := [{ text := "x=1", font_name := some ("Consolas") }] }]
    ∧ stripOneTerminator ("x=1\n\n") = "x=1\n"
    ∧ ¬ (build tsFence2).paras
      = [{ runs := [{ text := stripOneTerminator ("x=1\n\n"), font_name := some ("Consolas") }] }] := by
  refine ⟨by decide, by decide, by decide⟩

/-- C6 (amended): for every fence token the builder strips ALL trailing
line terminators from the raw code text (the stripped result never ends
in a newline, and the original is the result plus some number of
newlines), appends exactly one paragraph whose single run carries the
otherwise-unchanged text with the monospace override, and advances the
cursor by one; a fence with content x=1 plus one newline yields the
monospace run x=1. -/
theorem C6_fence_amended (ts : List Token) (st : BState) (tok : Token)
    (htok : ts[st.i]? = some tok) (hty : tok.type = "fence") :
    ((step ts st).paras = st.paras ++
        [{ runs := [{ text := rstripNL tok.content, font_name := some ("Consolas") }] }]
      ∧ (step ts st).i = st.i + 1
      ∧ (step ts st).list_stack = st.list_stack)
    ∧ (∀ s : String, (rstripNL s).data.getLast? ≠ some '\n')
    ∧ (∀ s : String, ∃ n, s = rstripNL s ++ String.mk (List.replicate n '\n'))
    ∧ rstripNL ("x=1\n") = "x=1" := by
  have hstep : step ts st =
      { st with
        i := st.i + 1,
        paras := st.paras ++
          [{ runs := [{ text := rstripNL tok.content, font_name := some ("Consolas") }] }] } := by
    simp [step, htok, hty]
  refine ⟨⟨by rw [hstep], by rw [hstep], by rw [hstep]⟩, ?_, ?_, by decide⟩
  · intro s h
    unfold rstripNL at h
    rw [List.getLast?_reverse] at h
    have := head?_dropWhile_not (fun c => c == '\n') s.data.reverse '\n' h
    simp at this
  · intro s
    refine ⟨(s.data.reverse.takeWhile (fun c => c == '\n')).length, ?_⟩
    unfold rstripNL
    rw [← strMk_append]
    cases s with
    | mk d =>
      show String.mk d = String.mk _
      congr 1
      have hsplit : d.reverse.takeWhile (fun c => c == '\n')
          ++ d.reverse.dropWhile (fun c => c == '\n') = d.reverse :=
        List.takeWhile_append_dropWhile _ _
      have hrep : d.reverse.takeWhile (fun c => c == '\n')
          = List.replicate (d.reverse.takeWhile (fun c => c == '\n')).length '\n' := by
        apply List.eq_replicate_of_mem
        intro b hb
        have := List.mem_takeWhile_imp hb
        simpa using this
      calc d = d.reverse.reverse := (List.reverse_reverse d).symm
        _ = (d.reverse.takeWhile (fun c => c == '\n')
              ++ d.reverse.dropWhile (fun c => c == '\n')).reverse := by rw [hsplit]
        _ = (d.reverse.dropWhile (fun c => c == '\n')).reverse
              ++ (d.reverse.takeWhile (fun c => c == '\n')).reverse := by
              rw [List.reverse_append]
        _ = (d.reverse.dropWhile (fun c => c == '\n')).reverse
              ++ List.replicate (d.reverse.takeWhile (fun c => c == '\n')).length '\n' := by
              rw [← List.reverse_replicate]
              rw [← hrep]

/-- Witness for C6 (amended) at the two-terminator fence stream. -/
theorem C6_fence_amended_witness :
    (step tsFence2 { i := 0, list_stack := [], paras := [] }).paras
      = [{ runs := [{ text := rstripNL ("x=1\n\n"), font_name := some ("Consolas") }] }]
    ∧ rstripNL ("x=1\n") = "x=1" := by
  have h := C6_fence_amended tsFence2 { i := 0, list_stack := [], paras := [] }
    { type := "fence", content := "x=1\n\n" } rfl rfl
  exact ⟨by simpa using h.1.1, h.2.2.2⟩

theorem itemScan_span (span : List Token) (close : Token) (rest : List Token) (acc : String)
    (hcl : close.type = "list_item_close") (hfree : ∀ u ∈ span, u.type ≠ "list_item_close") :
    itemScan (span ++ close :: rest) acc = (span.length, itemAcc span acc) := by
  induction span generalizing acc with
  | nil => simp [itemScan, hcl, itemAcc]
  | cons u span2 ih =>
    have hu : u.type ≠ "list_item_close" := hfree u (List.mem_cons_self u span2)
    simp only [List.cons_append, itemScan, hu, if_neg, ite_false, if_false, List.append_eq]
    rw [ih _ (fun v hv => hfree v (List.mem_cons_of_mem u hv))]
    simp [itemAcc]

theorem itemAcc_eq (span : List Token)
    (h : ∀ u ∈ span, u.type = "inline" → childrenTruthy u = true) :
    ∀ acc, itemAcc span acc =
      match (span.filter (fun u => u.type == "inline")).getLast? with
      | some u => joinAll u.children
      | none => acc := by
  induction span with
  | nil => intro acc; rfl
  | cons u span2 ih =>
    intro acc
    have ih2 := ih (fun v hv => h v (List.mem_cons_of_mem u hv))
    by_cases hu : u.type = "inline"
    · have htr : childrenTruthy u = true := h u (List.mem_cons_self u span2) hu
      have hacc2 : (if u.type = "inline" ∧ childrenTruthy u = true then
          joinContents u.children else acc) = joinAll u.children := by
        rw [if_pos ⟨hu, htr⟩, joinContents_eq_joinAll]
      rw [itemAcc, hacc2, ih2]
      have hfil : (u :: span2).filter (fun v => v.type == "inline")
          = u :: span2.filter (fun v => v.type == "inline") := by
        simp [List.filter_cons, hu]
      rw [hfil]
      rcases hsp : span2.filter (fun v => v.type == "inline") with _ | ⟨v, vs⟩
      · rw [hsp]
        simp
      · rw [hsp, List.getLast?_cons_cons]
        cases hgl : (v :: vs).getLast? with
        | none => simp at hgl
        | some z => rfl
    · have hacc2 : (if u.type = "inline" ∧ childrenTruthy u = true then
          joinContents u.children else acc) = acc := by
        rw [if_neg]
        intro hcon
        exact hu hcon.1
      rw [itemAcc, hacc2, ih2]
      have hfil : (u :: span2).filter (fun v => v.type == "inline")
          = span2.filter (fun v => v.type == "inline") := by
        simp [List.filter_cons, hu]
      rw [hfil]

theorem itemAcc_specLastText (span : List Token)
    (h : ∀ u ∈ span, u.type = "inline" → childrenTruthy u = true) :
    itemAcc span ("") = specLastText span := by
  rw [itemAcc_eq span h ("")]
  unfold specLastText
  rfl

theorem pyRepeat_spaces (n : Nat) : pyRepeat ("    ") n = spaces (4 * n) := by
  induction n with
  | zero => rfl
  | succ m ih =>
    show "    " ++ pyRepeat ("    ") m = spaces (4 * (m + 1))
    rw [ih]
    unfold spaces
    have h4 : 4 * (m + 1) = 4 + 4 * m := by omega
    rw [h4, List.replicate_add, strMk_append]
    rfl

theorem quoteScan_span (span : List Token) (close : Token) (rest : List Token)
    (acc : List String)
    (hcl : close.type = "blockquote_close") (hfree : ∀ u ∈ span, u.type ≠ "blockquote_close") :
    quoteScan (span ++ close :: rest) acc = (span.length, acc ++ quoteLines span) := by
  induction span generalizing acc with
  | nil => simp [quoteScan, hcl, quoteLines]
  | cons u span2 ih =>
    have hu : u.type ≠ "blockquote_close" := hfree u (List.mem_cons_self u span2)
    have ih2 := fun (a : List String) => ih a (fun v hv => hfree v (List.mem_cons_of_mem u hv))
    simp only [List.cons_append, quoteScan, hu, if_neg, ite_false, if_false, List.append_eq]
    by_cases hq : u.type = "inline" ∧ u.content ≠ ""
    · rw [if_pos hq, ih2 (acc ++ [u.content])]
      have hlines : quoteLines (u :: span2) = u.content :: quoteLines span2 := by
        unfold quoteLines
        simp [List.filter_cons, hq.1, bne_iff_ne, hq.2]
      rw [hlines]
      simp
    · rw [if_neg hq, ih2 acc]
      have hb : (u.type == "inline" && u.content != "") = false := by
        by_cases h1 : u.type = "inline"
        · have h2 : u.content = "" := by
            by_contra h2
            exact hq ⟨h1, h2⟩
          simp [h1, h2]
        · simp [h1]
      have hlines : quoteLines (u :: span2) = quoteLines span2 := by
        simp [quoteLines, List.filter_cons, hb]
      rw [hlines]
      simp

/-- C2: with the cursor at a list-item-open whose span (the tokens up to
the matching list-item-close) carries its inlines with nonempty child
lists, the builder emits exactly one paragraph equal to
indent ++ bullet ++ " " ++ text, where text is the concatenated plain
text of the last inline token of the span, the bullet is the • glyph
when the innermost open list context is bullet-kind and the fixed
literal 1. otherwise, the indent is four literal spaces times (stack
depth - 1), the paragraph has fixed 20pt line spacing, and the cursor
jumps past the matched close; the nested-list stream of spec section 8
produces two such paragraphs, the second indented by exactly four more
spaces, both with the • glyph. -/
theorem C2_list_item (ts : List Token) (st : BState) (tok close : Token)
    (span rest : List Token)
    (htok : ts[st.i]? = some tok) (hty : tok.type = "list_item_open")
    (hdrop : ts.drop (st.i + 1) = span ++ close :: rest)
    (hcl : close.type = "list_item_close")
    (hfree : ∀ u ∈ span, u.type ≠ "list_item_close")
    (hchild : ∀ u ∈ span, u.type = "inline" → childrenTruthy u = true) :
    ((step ts st).paras = st.paras ++
        [{ add_paragraph_text
            (spaces (4 * (st.list_stack.length - 1))
              ++ (if st.list_stack.head?.map StackEntry.type = some ("bullet_list_open")
                  then "•" else "1.")
              ++ " " ++ specLastText span) ("Normal")
           with line_spacing_pt := some 20 }]
      ∧ (step ts st).i = st.i + span.length + 2
      ∧ (step ts st).list_stack = st.list_stack)
    ∧ (build tsNested).paras =
        [{ add_paragraph_text ("• a") ("Normal") with line_spacing_pt := some 20 },
         { add_paragraph_text (spaces 4 ++ "• b") ("Normal") with
           line_spacing_pt := some 20 }] := by
  have hscan := itemScan_span span close rest ("") hcl hfree
  have hbullet : (match st.list_stack with
      | e :: _ => if e.type = "bullet_list_open" then "•" else "1."
      | [] => "1.")
      = (if st.list_stack.head?.map StackEntry.type = some ("bullet_list_open")
         then "•" else "1.") := by
    rcases st.list_stack with _ | ⟨e, es⟩
    · simp
    · by_cases he : e.type = "bullet_list_open" <;> simp [he]
  have hstep : step ts st =
      { st with
        i := st.i + 1 + span.length + 1,
        paras := st.paras ++
          [{ add_paragraph_text
              (pyRepeat ("    ") (st.list_stack.length - 1)
                ++ (match st.list_stack with
                    | e :: _ => if e.type = "bullet_list_open" then "•" else "1."
                    | [] => "1.")
                ++ " " ++ itemAcc span ("")) ("Normal")
             with line_spacing_pt := some 20 }] } := by
    simp [step, htok, hty, hdrop, hscan]
  refine ⟨⟨?_, ?_, ?_⟩, by decide⟩
  · rw [hstep]
    rw [pyRepeat_spaces, hbullet, itemAcc_specLastText span hchild]
  · rw [hstep]
    show st.i + 1 + span.length + 1 = st.i + span.length + 2
    omega
  · rw [hstep]

/-- Witness for C2 at the first item of the section 8 nested stream. -/
theorem C2_list_item_witness :
    (step tsNested
        { i := 1, list_stack := [{ type := "bullet_list_open", indent := 0 }], paras := [] }).paras
      = [{ add_paragraph_text (spaces 0 ++ "•" ++ " " ++ specLastText [inlineText ("a")])
            ("Normal") with line_spacing_pt := some 20 }]
    ∧ (step tsNested
        { i := 1, list_stack := [{ type := "bullet_list_open", indent := 0 }], paras := [] }).i
      = 4 := by
  have h := (C2_list_item tsNested
    { i := 1, list_stack := [{ type := "bullet_list_open", indent := 0 }], paras := [] }
    (mkTok ("list_item_open")) (mkTok ("list_item_close"))
    [inlineText ("a")]
    [mkTok ("bullet_list_open"), mkTok ("list_item_open"), inlineText ("b"),
     mkTok ("list_item_close"), mkTok ("bullet_list_close"), mkTok ("list_item_close"),
     mkTok ("bullet_list_close")]
    rfl rfl rfl rfl (by decide) (by decide)).1
  refine ⟨?_, h.2.1⟩
  rw [h.1]
  simp

/-- Counterexample to C7 as stated: a well-formed blockquote span holding
exactly one inline token (with empty raw content) yields zero appended
paragraphs, not one paragraph per inline token encountered. -/
theorem C7_blockquote_counterexample :
    (build tsQuoteEmpty).paras = []
    ∧ (tsQuoteEmpty.filter (fun t => t.type == "inline")).length = 1
    ∧ ¬ (build tsQuoteEmpty).paras.length
        = (tsQuoteEmpty.filter (fun t => t.type == "inline")).length := by
  refine ⟨by decide, by decide, by decide⟩

/-- C7 (amended): with the cursor at a blockquote-open, the builder scans
to the matching blockquote-close, collects the raw content of every
inline token of the span whose content is NONEMPTY, appends one
paragraph per collected string prefixed by the quote marker, and jumps
the cursor past the matched close. -/
theorem C7_blockquote_amended (ts : List Token) (st : BState) (tok close : Token)
    (span rest : List Token)
    (htok : ts[st.i]? = some tok) (hty : tok.type = "blockquote_open")
    (hdrop : ts.drop (st.i + 1) = span ++ close :: rest)
    (hcl : close.type = "blockquote_close")
    (hfree : ∀ u ∈ span, u.type ≠ "blockquote_close") :
    (step ts st).paras = st.paras ++
        (quoteLines span).map (fun line => add_paragraph_text ("> " ++ line) ("Normal"))
    ∧ (step ts st).i = st.i + span.length + 2
    ∧ (step ts st).list_stack = st.list_stack := by
  have hscan := quoteScan_span span close rest [] hcl hfree
  have hstep : step ts st =
      { st with
        i := st.i + 1 + span.length + 1,
        paras := st.paras ++
          ([] ++ quoteLines span).map (fun line => add_paragraph_text ("> " ++ line) ("Normal")) } := by
    simp [step, htok, hty, hdrop, hscan]
  refine ⟨?_, ?_, ?_⟩
  · rw [hstep]
    simp
  · rw [hstep]
    show st.i + 1 + span.length + 1 = st.i + span.length + 2
    omega
  · rw [hstep]

/-- Witness for C7 (amended) on a blockquote with two inline lines, one
of them empty: only the nonempty line is emitted. -/
theorem C7_blockquote_amended_witness :
    (step [mkTok ("blockquote_open"),
           { type := "inline", content := "line one" },
           { type := "inline", content := "" },
           mkTok ("blockquote_close")]
        { i := 0, list_stack := [], paras := [] }).paras
      = (quoteLines [{ type := "inline", content := "line one" },
          { type := "inline", content := "" }]).map
            (fun line => add_paragraph_text ("> " ++ line) ("Normal"))
    ∧ (step [mkTok ("blockquote_open"),
           { type := "inline", content := "line one" },
           { type := "inline", content := "" },
           mkTok ("blockquote_close")]
        { i := 0, list_stack := [], paras := [] }).i = 4 := by
  have h := C7_blockquote_amended
    [mkTok ("blockquote_open"),
     { type := "inline", content := "line one" },
     { type := "inline", content := "" },
     mkTok ("blockquote_close")]
    { i := 0, list_stack := [], paras := [] }
    (mkTok ("blockquote_open")) (mkTok ("blockquote_close"))
    [{ type := "inline", content := "line one" }, { type := "inline", content := "" }]
    [] rfl rfl rfl rfl (by decide)
  exact ⟨by simpa using h.1, h.2.1⟩

theorem step_cursor_lt (ts : List Token) (st : BState) (h : st.i < ts.length) :
    st.i < (step ts st).i := by
  have htok : ts[st.i]? = some (ts[st.i]) := List.getElem?_eq_getElem h
  simp only [step, htok]
  split_ifs <;>
    first
      | (dsimp only; omega)
      | (split <;> (dsimp only; omega))

theorem walk_cursor_ge (ts : List Token) : ∀ (fuel : Nat) (st : BState),
    ts.length - st.i ≤ fuel → ts.length ≤ (walk ts fuel st).i := by
  intro fuel
  induction fuel with
  | zero =>
    intro st h
    simp only [walk]
    omega
  | succ m ih =>
    intro st h
    simp only [walk]
    by_cases hlt : st.i < ts.length
    · rw [if_pos hlt]
      apply ih
      have := step_cursor_lt ts st hlt
      omega
    · rw [if_neg hlt]
      omega

/-- C10: on every finite token sequence, balanced or not, the walk
terminates without reading outside the stream: every branch of the state
machine strictly increases the cursor while it is in bounds (all
lookaheads and scans in the model are bounds-checked optional reads), so
running the loop with fuel equal to the stream length already drives the
cursor to or past the end of the stream. -/
theorem C10_walk_terminates :
    (∀ (ts : List Token) (st : BState), st.i < ts.length → st.i < (step ts st).i)
    ∧ (∀ ts : List Token, ts.length ≤ (build ts).i) := by
  constructor
  · exact step_cursor_lt
  · intro ts
    simpa [build] using
      walk_cursor_ge ts ts.length { i := 0, list_stack := [], paras := [] } (by omega)

/-- Witness for C10 on the Hello stream from the initial state. -/
theorem C10_walk_terminates_witness :
    (0 : Nat) < (step tsHello { i := 0, list_stack := [], paras := [] }).i
    ∧ tsHello.length ≤ (build tsHello).i :=
  ⟨C10_walk_terminates.1 tsHello { i := 0, list_stack := [], paras := [] } (by decide),
   C10_walk_terminates.2 tsHello⟩

/-- Counterexample to C3 as stated: a stream in which EVERY paired kind
(lists, items, paragraphs, headings, blockquotes) is matched and
properly nested, yet the walk ends with a nonempty list stack: the
paragraph handler's blind skip of three jumps over both the paragraph
close and the list close. -/
theorem C3_stack_counterexample :
    BalancedPairs tsUnclosed ∧ (build tsUnclosed).list_stack ≠ [] := by
  constructor
  · decide
  · decide

theorem sumw_append (a b : List Token) : sumw (a ++ b) = sumw a + sumw b := by
  induction a with
  | nil => simp [sumw]
  | cons t rest ih =>
    show w t + sumw (rest ++ b) = w t + sumw rest + sumw b
    rw [ih]
    omega

theorem atom_no_weight (t : Token) (h : isAtomType t.type = true) : w t = 0 := by
  simp only [isAtomType, structuralTypes, Bool.not_eq_true'] at h
  have hmem : ¬ (t.type = "heading_open" ∨ t.type = "heading_close"
      ∨ t.type = "paragraph_open" ∨ t.type = "paragraph_close"
      ∨ t.type = "bullet_list_open" ∨ t.type = "bullet_list_close"
      ∨ t.type = "ordered_list_open" ∨ t.type = "ordered_list_close"
      ∨ t.type = "list_item_open" ∨ t.type = "list_item_close"
      ∨ t.type = "blockquote_open" ∨ t.type = "blockquote_close") := by
    intro hcon
    have : ([("heading_open" : String), "heading_close", "paragraph_open", "paragraph_close",
        "bullet_list_open", "bullet_list_close", "ordered_list_open", "ordered_list_close",
        "list_item_open", "list_item_close", "blockquote_open", "blockquote_close"].contains
        t.type) = true := by
      rcases hcon with h1 | h1 | h1 | h1 | h1 | h1 | h1 | h1 | h1 | h1 | h1 | h1 <;>
        simp [List.contains, h1]
    rw [this] at h
    simp at h
  push_neg at hmem
  simp [w, hmem.2.2.2.2.1, hmem.2.2.2.2.2.1, hmem.2.2.2.2.2.2.1, hmem.2.2.2.2.2.2.2.1]

theorem atom_not_type (t : Token) (h : isAtomType t.type = true) (s : String)
    (hs : structuralTypes.contains s = true) : t.type ≠ s := by
  intro hcon
  simp only [isAtomType, hcon, hs] at h
  simp at h

theorem wf_sumw_zero {b : Bool} {ts : List Token} (hwf : WF b ts) : sumw ts = 0 := by
  induction hwf with
  | nil => rfl
  | atom t rest h hr ih =>
    show w t + sumw rest = 0
    rw [atom_no_weight t h, ih]
    rfl
  | heading t u v rest h1 h2 h3 hr ih =>
    show w t + (w u + (w v + sumw rest)) = 0
    rw [ih]
    simp [w, h1, h2, h3]
  | para t u v rest h1 h2 h3 hr ih =>
    show w t + (w u + (w v + sumw rest)) = 0
    rw [ih]
    simp [w, h1, h2, h3]
  | blist o c items rest ho hc hi hr ihi ihr =>
    show w o + sumw (items ++ c :: rest) = 0
    rw [sumw_append, ihi]
    show w o + (0 + (w c + sumw rest)) = 0
    rw [ihr]
    simp [w, ho, hc]
  | olist o c items rest ho hc hi hr ihi ihr =>
    show w o + sumw (items ++ c :: rest) = 0
    rw [sumw_append, ihi]
    show w o + (0 + (w c + sumw rest)) = 0
    rw [ihr]
    simp [w, ho, hc]
  | quote o c inner rest ho hc hi hr ihi ihr =>
    show w o + sumw (inner ++ c :: rest) = 0
    rw [sumw_append, ihi]
    show w o + (0 + (w c + sumw rest)) = 0
    rw [ihr]
    simp [w, ho, hc]
  | item l c body rest hl hc hb hr ihb ihr =>
    show w l + sumw (body ++ c :: rest) = 0
    rw [sumw_append, ihb]
    show w l + (0 + (w c + sumw rest)) = 0
    rw [ihr]
    simp [w, hl, hc]

theorem wf_take_nonneg {b : Bool} {ts : List Token} (hwf : WF b ts) :
    ∀ p, 0 ≤ sumw (ts.take p) := by
  induction hwf with
  | nil =>
    intro p
    simp [sumw]
  | atom t rest h hr ih =>
    intro p
    cases p with
    | zero => simp [sumw]
    | succ q =>
      rw [List.take_succ_cons]
      show 0 ≤ w t + sumw (rest.take q)
      have h1 := ih q
      rw [atom_no_weight t h]
      omega
  | heading t u v rest h1 h2 h3 hr ih =>
    intro p
    have hwt : w t = 0 := by simp [w, h1]
    have hwu : w u = 0 := by simp [w, h2]
    have hwv : w v = 0 := by simp [w, h3]
    cases p with
    | zero => simp [sumw]
    | succ p1 =>
      cases p1 with
      | zero =>
        show 0 ≤ w t + sumw ([].take 0)
        rw [hwt]
        simp [sumw]
      | succ p2 =>
        cases p2 with
        | zero =>
          show 0 ≤ w t + (w u + sumw ([].take 0))
          rw [hwt, hwu]
          simp [sumw]
        | succ q =>
          rw [List.take_succ_cons, List.take_succ_cons, List.take_succ_cons]
          show 0 ≤ w t + (w u + (w v + sumw (rest.take q)))
          have h4 := ih q
          omega
  | para t u v rest h1 h2 h3 hr ih =>
    intro p
    have hwt : w t = 0 := by simp [w, h1]
    have hwu : w u = 0 := by simp [w, h2]
    have hwv : w v = 0 := by simp [w, h3]
    cases p with
    | zero => simp [sumw]
    | succ p1 =>
      cases p1 with
      | zero =>
        show 0 ≤ w t + sumw ([].take 0)
        rw [hwt]
        simp [sumw]
      | succ p2 =>
        cases p2 with
        | zero =>
          show 0 ≤ w t + (w u + sumw ([].take 0))
          rw [hwt, hwu]
          simp [sumw]
        | succ q =>
          rw [List.take_succ_cons, List.take_succ_cons, List.take_succ_cons]
          show 0 ≤ w t + (w u + (w v + sumw (rest.take q)))
          have h4 := ih q
          omega
  | blist o c items rest ho hc hi hr ihi ihr =>
    intro p
    have hwo : w o = 1 := by simp [w, ho]
    have hwc : w c = -1 := by simp [w, hc]
    cases p with
    | zero => simp [sumw]
    | succ q =>
      rw [List.take_succ_cons]
      show 0 ≤ w o + sumw ((items ++ c :: rest).take q)
      by_cases hq : q ≤ items.length
      · rw [List.take_append_of_le_length hq]
        have h1 := ihi q
        omega
      · have e1 : (items ++ c :: rest).take q
            = items ++ (c :: rest).take (q - items.length) := by
          rw [List.take_append_eq_append_take, List.take_of_length_le (by omega)]
        rw [e1, sumw_append, wf_sumw_zero hi]
        obtain ⟨m, hm⟩ : ∃ m, q - items.length = m + 1 := ⟨q - items.length - 1, by omega⟩
        rw [hm, List.take_succ_cons]
        show 0 ≤ w o + (0 + (w c + sumw (rest.take m)))
        have h2 := ihr m
        omega
  | olist o c items rest ho hc hi hr ihi ihr =>
    intro p
    have hwo : w o = 1 := by simp [w, ho]
    have hwc : w c = -1 := by simp [w, hc]
    cases p with
    | zero => simp [sumw]
    | succ q =>
      rw [List.take_succ_cons]
      show 0 ≤ w o + sumw ((items ++ c :: rest).take q)
      by_cases hq : q ≤ items.length
      · rw [List.take_append_of_le_length hq]
        have h1 := ihi q
        omega
      · have e1 : (items ++ c :: rest).take q
            = items ++ (c :: rest).take (q - items.length) := by
          rw [List.take_append_eq_append_take, List.take_of_length_le (by omega)]
        rw [e1, sumw_append, wf_sumw_zero hi]
        obtain ⟨m, hm⟩ : ∃ m, q - items.length = m + 1 := ⟨q - items.length - 1, by omega⟩
        rw [hm, List.take_succ_cons]
        show 0 ≤ w o + (0 + (w c + sumw (rest.take m)))
        have h2 := ihr m
        omega
  | quote o c inner rest ho hc hi hr ihi ihr =>
    intro p
    have hwo : w o = 0 := by simp [w, ho]
    have hwc : w c = 0 := by simp [w, hc]
    cases p with
    | zero => simp [sumw]
    | succ q =>
      rw [List.take_succ_cons]
      show 0 ≤ w o + sumw ((inner ++ c :: rest).take q)
      by_cases hq : q ≤ inner.length
      · rw [List.take_append_of_le_length hq]
        have h1 := ihi q
        omega
      · have e1 : (inner ++ c :: rest).take q
            = inner ++ (c :: rest).take (q - inner.length) := by
          rw [List.take_append_eq_append_take, List.take_of_length_le (by omega)]
        rw [e1, sumw_append, wf_sumw_zero hi]
        obtain ⟨m, hm⟩ : ∃ m, q - inner.length = m + 1 := ⟨q - inner.length - 1, by omega⟩
        rw [hm, List.take_succ_cons]
        show 0 ≤ w o + (0 + (w c + sumw (rest.take m)))
        have h2 := ihr m
        omega
  | item l c body rest hl hc hb hr ihb ihr =>
    intro p
    have hwl : w l = 0 := by simp [w, hl]
    have hwc : w c = 0 := by simp [w, hc]
    cases p with
    | zero => simp [sumw]
    | succ q =>
      rw [List.take_succ_cons]
      show 0 ≤ w l + sumw ((body ++ c :: rest).take q)
      by_cases hq : q ≤ body.length
      · rw [List.take_append_of_le_length hq]
        have h1 := ihb q
        omega
      · have e1 : (body ++ c :: rest).take q
            = body ++ (c :: rest).take (q - body.length) := by
          rw [List.take_append_eq_append_take, List.take_of_length_le (by omega)]
        rw [e1, sumw_append, wf_sumw_zero hb]
        obtain ⟨m, hm⟩ : ∃ m, q - body.length = m + 1 := ⟨q - body.length - 1, by omega⟩
        rw [hm, List.take_succ_cons]
        show 0 ≤ w l + (0 + (w c + sumw (rest.take m)))
        have h2 := ihr m
        omega

theorem scanIdx_le_length (stop : String) (l : List Token) : scanIdx stop l ≤ l.length := by
  induction l with
  | nil => simp [scanIdx]
  | cons t rest ih =>
    simp only [scanIdx, List.length_cons]
    by_cases h : t.type = stop
    · rw [if_pos h]
      omega
    · rw [if_neg h]
      omega

theorem scanIdx_append_found (stop : String) (l ext : List Token)
    (h : scanIdx stop l < l.length) : scanIdx stop (l ++ ext) = scanIdx stop l := by
  induction l with
  | nil => simp [scanIdx] at h
  | cons t rest ih =>
    by_cases ht : t.type = stop
    · show (if t.type = stop then 0 else scanIdx stop (rest ++ ext) + 1)
        = (if t.type = stop then 0 else scanIdx stop rest + 1)
      rw [if_pos ht, if_pos ht]
    · simp only [scanIdx, if_neg ht, List.length_cons] at h
      show (if t.type = stop then 0 else scanIdx stop (rest ++ ext) + 1)
        = (if t.type = stop then 0 else scanIdx stop rest + 1)
      rw [if_neg ht, if_neg ht, ih (by omega)]

theorem scanIdx_append_notfound (stop : String) (l ext : List Token)
    (h : scanIdx stop l = l.length) :
    scanIdx stop (l ++ ext) = l.length + scanIdx stop ext := by
  induction l with
  | nil => simp [scanIdx]
  | cons t rest ih =>
    by_cases ht : t.type = stop
    · simp only [scanIdx, if_pos ht, List.length_cons] at h
      omega
    · simp only [scanIdx, if_neg ht, List.length_cons] at h
      show (if t.type = stop then 0 else scanIdx stop (rest ++ ext) + 1)
        = rest.length + 1 + scanIdx stop ext
      rw [if_neg ht, ih (by omega)]
      omega

theorem scanIdx_getElem (stop : String) (l : List Token)
    (h : scanIdx stop l < l.length) :
    ∃ u, l[scanIdx stop l]? = some u ∧ u.type = stop := by
  induction l with
  | nil => simp [scanIdx] at h
  | cons t rest ih =>
    by_cases ht : t.type = stop
    · refine ⟨t, ?_, ht⟩
      simp [scanIdx, ht]
    · simp only [scanIdx, if_neg ht, List.length_cons] at h
      obtain ⟨u, hu, hut⟩ := ih (by omega)
      refine ⟨u, ?_, hut⟩
      simp [scanIdx, ht, hu]

theorem itemScan_fst (l : List Token) : ∀ acc : String,
    (itemScan l acc).1 = scanIdx ("list_item_close") l := by
  induction l with
  | nil =>
    intro acc
    rfl
  | cons t rest ih =>
    intro acc
    by_cases ht : t.type = "list_item_close"
    · simp [itemScan, scanIdx, ht]
    · simp only [itemScan, scanIdx, if_neg ht]
      rw [ih]

theorem quoteScan_fst (l : List Token) : ∀ acc : List String,
    (quoteScan l acc).1 = scanIdx ("blockquote_close") l := by
  induction l with
  | nil =>
    intro acc
    rfl
  | cons t rest ih =>
    intro acc
    by_cases ht : t.type = "blockquote_close"
    · simp [quoteScan, scanIdx, ht]
    · simp only [quoteScan, scanIdx, if_neg ht]
      rw [ih]

/-- In a well-formed stream, the region scanned before the FIRST
list-item-close (respectively blockquote-close), when one exists,
carries at least as many list opens as list closes: the prefix sum of
Dyck weights up to the stop position is nonnegative. -/
theorem wf_scan_sums {b : Bool} {ts : List Token} (hwf : WF b ts) :
    (∀ k, scanIdx ("list_item_close") ts = k → k < ts.length → 0 ≤ sumw (ts.take k))
    ∧ (∀ k, scanIdx ("blockquote_close") ts = k → k < ts.length → 0 ≤ sumw (ts.take k)) := by
  induction hwf with
  | nil =>
    constructor <;> (intro k hk hlt; simp at hlt)
  | atom t rest h hr ih =>
    have hw : w t = 0 := atom_no_weight t h
    constructor
    · intro k hk hlt
      have hne : t.type ≠ "list_item_close" := atom_not_type t h _ (by decide)
      simp only [scanIdx, if_neg hne] at hk
      subst hk
      simp only [List.length_cons] at hlt
      rw [List.take_succ_cons]
      show 0 ≤ w t + sumw (rest.take (scanIdx ("list_item_close") rest))
      have h1 := ih.1 _ rfl (by omega)
      omega
    · intro k hk hlt
      have hne : t.type ≠ "blockquote_close" := atom_not_type t h _ (by decide)
      simp only [scanIdx, if_neg hne] at hk
      subst hk
      simp only [List.length_cons] at hlt
      rw [List.take_succ_cons]
      show 0 ≤ w t + sumw (rest.take (scanIdx ("blockquote_close") rest))
      have h1 := ih.2 _ rfl (by omega)
      omega
  | heading t u v rest h1 h2 h3 hr ih =>
    have hwt : w t = 0 := by simp [w, h1]
    have hwu : w u = 0 := by simp [w, h2]
    have hwv : w v = 0 := by simp [w, h3]
    constructor
    · intro k hk hlt
      have hn1 : t.type ≠ "list_item_close" := by rw [h1]; decide
      have hn2 : u.type ≠ "list_item_close" := by rw [h2]; decide
      have hn3 : v.type ≠ "list_item_close" := by rw [h3]; decide
      simp only [scanIdx, if_neg hn1, if_neg hn2, if_neg hn3] at hk
      subst hk
      simp only [List.length_cons] at hlt
      rw [List.take_succ_cons, List.take_succ_cons, List.take_succ_cons]
      show 0 ≤ w t + (w u + (w v + sumw (rest.take (scanIdx ("list_item_close") rest))))
      have h4 := ih.1 _ rfl (by omega)
      omega
    · intro k hk hlt
      have hn1 : t.type ≠ "blockquote_close" := by rw [h1]; decide
      have hn2 : u.type ≠ "blockquote_close" := by rw [h2]; decide
      have hn3 : v.type ≠ "blockquote_close" := by rw [h3]; decide
      simp only [scanIdx, if_neg hn1, if_neg hn2, if_neg hn3] at hk
      subst hk
      simp only [List.length_cons] at hlt
      rw [List.take_succ_cons, List.take_succ_cons, List.take_succ_cons]
      show 0 ≤ w t + (w u + (w v + sumw (rest.take (scanIdx ("blockquote_close") rest))))
      have h4 := ih.2 _ rfl (by omega)
      omega
  | para t u v rest h1 h2 h3 hr ih =>
    have hwt : w t = 0 := by simp [w, h1]
    have hwu : w u = 0 := by simp [w, h2]
    have hwv : w v = 0 := by simp [w, h3]
    constructor
    · intro k hk hlt
      have hn1 : t.type ≠ "list_item_close" := by rw [h1]; decide
      have hn2 : u.type ≠ "list_item_close" := by rw [h2]; decide
      have hn3 : v.type ≠ "list_item_close" := by rw [h3]; decide
      simp only [scanIdx, if_neg hn1, if_neg hn2, if_neg hn3] at hk
      subst hk
      simp only [List.length_cons] at hlt
      rw [List.take_succ_cons, List.take_succ_cons, List.take_succ_cons]
      show 0 ≤ w t + (w u + (w v + sumw (rest.take (scanIdx ("list_item_close") rest))))
      have h4 := ih.1 _ rfl (by omega)
      omega
    · intro k hk hlt
      have hn1 : t.type ≠ "blockquote_close" := by rw [h1]; decide
      have hn2 : u.type ≠ "blockquote_close" := by rw [h2]; decide
      have hn3 : v.type ≠ "blockquote_close" := by rw [h3]; decide
      simp only [scanIdx, if_neg hn1, if_neg hn2, if_neg hn3] at hk
      subst hk
      simp only [List.length_cons] at hlt
      rw [List.take_succ_cons, List.take_succ_cons, List.take_succ_cons]
      show 0 ≤ w t + (w u + (w v + sumw (rest.take (scanIdx ("blockquote_close") rest))))
      have h4 := ih.2 _ rfl (by omega)
      omega
  | blist o c items rest ho hc hi hr ihi ihr =>
    have hwo : w o = 1 := by simp [w, ho]
    have hwc : w c = -1 := by simp [w, hc]
    constructor
    · intro k hk hlt
      have hne_o : o.type ≠ "list_item_close" := by rw [ho]; decide
      simp only [scanIdx, if_neg hne_o] at hk
      by_cases hfound : scanIdx ("list_item_close") items < items.length
      · rw [scanIdx_append_found _ _ _ hfound] at hk
        subst hk
        rw [List.take_succ_cons, List.take_append_of_le_length (le_of_lt hfound)]
        show 0 ≤ w o + sumw (items.take (scanIdx ("list_item_close") items))
        have h5 := ihi.1 _ rfl hfound
        omega
      · have hnf : scanIdx ("list_item_close") items = items.length :=
          le_antisymm (scanIdx_le_length _ _) (by omega)
        rw [scanIdx_append_notfound _ _ _ hnf] at hk
        have hne_c : c.type ≠ "list_item_close" := by rw [hc]; decide
        simp only [scanIdx, if_neg hne_c] at hk
        subst hk
        simp only [List.length_cons, List.length_append] at hlt
        rw [List.take_succ_cons]
        have e1 : (items ++ c :: rest).take
              (items.length + (scanIdx ("list_item_close") rest + 1))
            = items ++ (c :: rest).take (scanIdx ("list_item_close") rest + 1) := by
          rw [List.take_append_eq_append_take, List.take_of_length_le (by omega)]
          congr 2
          omega
        rw [e1, List.take_succ_cons]
        show 0 ≤ w o + sumw (items ++ c :: rest.take (scanIdx ("list_item_close") rest))
        rw [sumw_append, wf_sumw_zero hi]
        show 0 ≤ w o + (0 + (w c + sumw (rest.take (scanIdx ("list_item_close") rest))))
        have h5 := ihr.1 _ rfl (by omega)
        omega
    · intro k hk hlt
      have hne_o : o.type ≠ "blockquote_close" := by rw [ho]; decide
      simp only [scanIdx, if_neg hne_o] at hk
      by_cases hfound : scanIdx ("blockquote_close") items < items.length
      · rw [scanIdx_append_found _ _ _ hfound] at hk
        subst hk
        rw [List.take_succ_cons, List.take_append_of_le_length (le_of_lt hfound)]
        show 0 ≤ w o + sumw (items.take (scanIdx ("blockquote_close") items))
        have h5 := ihi.2 _ rfl hfound
        omega
      · have hnf : scanIdx ("blockquote_close") items = items.length :=
          le_antisymm (scanIdx_le_length _ _) (by omega)
        rw [scanIdx_append_notfound _ _ _ hnf] at hk
        have hne_c : c.type ≠ "blockquote_close" := by rw [hc]; decide
        simp only [scanIdx, if_neg hne_c] at hk
        subst hk
        simp only [List.length_cons, List.length_append] at hlt
        rw [List.take_succ_cons]
        have e1 : (items ++ c :: rest).take
              (items.length + (scanIdx ("blockquote_close") rest + 1))
            = items ++ (c :: rest).take (scanIdx ("blockquote_close") rest + 1) := by
          rw [List.take_append_eq_append_take, List.take_of_length_le (by omega)]
          congr 2
          omega
        rw [e1, List.take_succ_cons]
        show 0 ≤ w o + sumw (items ++ c :: rest.take (scanIdx ("blockquote_close") rest))
        rw [sumw_append, wf_sumw_zero hi]
        show 0 ≤ w o + (0 + (w c + sumw (rest.take (scanIdx ("blockquote_close") rest))))
        have h5 := ihr.2 _ rfl (by omega)
        omega
  | olist o c items rest ho hc hi hr ihi ihr =>
    have hwo : w o = 1 := by simp [w, ho]
    have hwc : w c = -1 := by simp [w, hc]
    constructor
    · intro k hk hlt
      have hne_o : o.type ≠ "list_item_close" := by rw [ho]; decide
      simp only [scanIdx, if_neg hne_o] at hk
      by_cases hfound : scanIdx ("list_item_close") items < items.length
      · rw [scanIdx_append_found _ _ _ hfound] at hk
        subst hk
        rw [List.take_succ_cons, List.take_append_of_le_length (le_of_lt hfound)]
        show 0 ≤ w o + sumw (items.take (scanIdx ("list_item_close") items))
        have h5 := ihi.1 _ rfl hfound
        omega
      · have hnf : scanIdx ("list_item_close") items = items.length :=
          le_antisymm (scanIdx_le_length _ _) (by omega)
        rw [scanIdx_append_notfound _ _ _ hnf] at hk
        have hne_c : c.type ≠ "list_item_close" := by rw [hc]; decide
        simp only [scanIdx, if_neg hne_c] at hk
        subst hk
        simp only [List.length_cons, List.length_append] at hlt
        rw [List.take_succ_cons]
        have e1 : (items ++ c :: rest).take
              (items.length + (scanIdx ("list_item_close") rest + 1))
            = items ++ (c :: rest).take (scanIdx ("list_item_close") rest + 1) := by
          rw [List.take_append_eq_append_take, List.take_of_length_le (by omega)]
          congr 2
          omega
        rw [e1, List.take_succ_cons]
        show 0 ≤ w o + sumw (items ++ c :: rest.take (scanIdx ("list_item_close") rest))
        rw [sumw_append, wf_sumw_zero hi]
        show 0 ≤ w o + (0 + (w c + sumw (rest.take (scanIdx ("list_item_close") rest))))
        have h5 := ihr.1 _ rfl (by omega)
        omega
    · intro k hk hlt
      have hne_o : o.type ≠ "blockquote_close" := by rw [ho]; decide
      simp only [scanIdx, if_neg hne_o] at hk
      by_cases hfound : scanIdx ("blockquote_close") items < items.length
      · rw [scanIdx_append_found _ _ _ hfound] at hk
        subst hk
        rw [List.take_succ_cons, List.take_append_of_le_length (le_of_lt hfound)]
        show 0 ≤ w o + sumw (items.take (scanIdx ("blockquote_close") items))
        have h5 := ihi.2 _ rfl hfound
        omega
      · have hnf : scanIdx ("blockquote_close") items = items.length :=
          le_antisymm (scanIdx_le_length _ _) (by omega)
        rw [scanIdx_append_notfound _ _ _ hnf] at hk
        have hne_c : c.type ≠ "blockquote_close" := by rw [hc]; decide
        simp only [scanIdx, if_neg hne_c] at hk
        subst hk
        simp only [List.length_cons, List.length_append] at hlt
        rw [List.take_succ_cons]
        have e1 : (items ++ c :: rest).take
              (items.length + (scanIdx ("blockquote_close") rest + 1))
            = items ++ (c :: rest).take (scanIdx ("blockquote_close") rest + 1) := by
          rw [List.take_append_eq_append_take, List.take_of_length_le (by omega)]
          congr 2
          omega
        rw [e1, List.take_succ_cons]
        show 0 ≤ w o + sumw (items ++ c :: rest.take (scanIdx ("blockquote_close") rest))
        rw [sumw_append, wf_sumw_zero hi]
        show 0 ≤ w o + (0 + (w c + sumw (rest.take (scanIdx ("blockquote_close") rest))))
        have h5 := ihr.2 _ rfl (by omega)
        omega
  | quote o c inner rest ho hc hi hr ihi ihr =>
    have hwo : w o = 0 := by simp [w, ho]
    have hwc : w c = 0 := by simp [w, hc]
    constructor
    · intro k hk hlt
      have hne_o : o.type ≠ "list_item_close" := by rw [ho]; decide
      simp only [scanIdx, if_neg hne_o] at hk
      by_cases hfound : scanIdx ("list_item_close") inner < inner.length
      · rw [scanIdx_append_found _ _ _ hfound] at hk
        subst hk
        rw [List.take_succ_cons, List.take_append_of_le_length (le_of_lt hfound)]
        show 0 ≤ w o + sumw (inner.take (scanIdx ("list_item_close") inner))
        have h5 := ihi.1 _ rfl hfound
        omega
      · have hnf : scanIdx ("list_item_close") inner = inner.length :=
          le_antisymm (scanIdx_le_length _ _) (by omega)
        rw [scanIdx_append_notfound _ _ _ hnf] at hk
        have hne_c : c.type ≠ "list_item_close" := by rw [hc]; decide
        simp only [scanIdx, if_neg hne_c] at hk
        subst hk
        simp only [List.length_cons, List.length_append] at hlt
        rw [List.take_succ_cons]
        have e1 : (inner ++ c :: rest).take
              (inner.length + (scanIdx ("list_item_close") rest + 1))
            = inner ++ (c :: rest).take (scanIdx ("list_item_close") rest + 1) := by
          rw [List.take_append_eq_append_take, List.take_of_length_le (by omega)]
          congr 2
          omega
        rw [e1, List.take_succ_cons]
        show 0 ≤ w o + sumw (inner ++ c :: rest.take (scanIdx ("list_item_close") rest))
        rw [sumw_append, wf_sumw_zero hi]
        show 0 ≤ w o + (0 + (w c + sumw (rest.take (scanIdx ("list_item_close") rest))))
        have h5 := ihr.1 _ rfl (by omega)
        omega
    · intro k hk hlt
      have hne_o : o.type ≠ "blockquote_close" := by rw [ho]; decide
      simp only [scanIdx, if_neg hne_o] at hk
      by_cases hfound : scanIdx ("blockquote_close") inner < inner.length
      · rw [scanIdx_append_found _ _ _ hfound] at hk
        subst hk
        rw [List.take_succ_cons, List.take_append_of_le_length (le_of_lt hfound)]
        show 0 ≤ w o + sumw (inner.take (scanIdx ("blockquote_close") inner))
        have h5 := ihi.2 _ rfl hfound
        omega
      · have hnf : scanIdx ("blockquote_close") inner = inner.length :=
          le_antisymm (scanIdx_le_length _ _) (by omega)
        rw [scanIdx_append_notfound _ _ _ hnf] at hk
        simp only [scanIdx, if_pos hc] at hk
        subst hk
        rw [List.take_succ_cons]
        have e1 : (inner ++ c :: rest).take inner.length = inner := List.take_left _ _
        rw [e1]
        show 0 ≤ w o + sumw inner
        rw [wf_sumw_zero hi]
        omega
  | item l c body rest hl hc hb hr ihb ihr =>
    have hwl : w l = 0 := by simp [w, hl]
    have hwc : w c = 0 := by simp [w, hc]
    constructor
    · intro k hk hlt
      have hne_l : l.type ≠ "list_item_close" := by rw [hl]; decide
      simp only [scanIdx, if_neg hne_l] at hk
      by_cases hfound : scanIdx ("list_item_close") body < body.length
      · rw [scanIdx_append_found _ _ _ hfound] at hk
        subst hk
        rw [List.take_succ_cons, List.take_append_of_le_length (le_of_lt hfound)]
        show 0 ≤ w l + sumw (body.take (scanIdx ("list_item_close") body))
        have h5 := ihb.1 _ rfl hfound
        omega
      · have hnf : scanIdx ("list_item_close") body = body.length :=
          le_antisymm (scanIdx_le_length _ _) (by omega)
        rw [scanIdx_append_notfound _ _ _ hnf] at hk
        simp only [scanIdx, if_pos hc] at hk
        subst hk
        rw [List.take_succ_cons]
        have e1 : (body ++ c :: rest).take body.length = body := List.take_left _ _
        rw [e1]
        show 0 ≤ w l + sumw body
        rw [wf_sumw_zero hb]
        omega
    · intro k hk hlt
      have hne_l : l.type ≠ "blockquote_close" := by rw [hl]; decide
      simp only [scanIdx, if_neg hne_l] at hk
      by_cases hfound : scanIdx ("blockquote_close") body < body.length
      · rw [scanIdx_append_found _ _ _ hfound] at hk
        subst hk
        rw [List.take_succ_cons, List.take_append_of_le_length (le_of_lt hfound)]
        show 0 ≤ w l + sumw (body.take (scanIdx ("blockquote_close") body))
        have h5 := ihb.2 _ rfl hfound
        omega
      · have hnf : scanIdx ("blockquote_close") body = body.length :=
          le_antisymm (scanIdx_le_length _ _) (by omega)
        rw [scanIdx_append_notfound _ _ _ hnf] at hk
        have hne_c : c.type ≠ "blockquote_close" := by rw [hc]; decide
        simp only [scanIdx, if_neg hne_c] at hk
        subst hk
        simp only [List.length_cons, List.length_append] at hlt
        rw [List.take_succ_cons]
        have e1 : (body ++ c :: rest).take
              (body.length + (scanIdx ("blockquote_close") rest + 1))
            = body ++ (c :: rest).take (scanIdx ("blockquote_close") rest + 1) := by
          rw [List.take_append_eq_append_take, List.take_of_length_le (by omega)]
          congr 2
          omega
        rw [e1, List.take_succ_cons]
        show 0 ≤ w l + sumw (body ++ c :: rest.take (scanIdx ("blockquote_close") rest))
        rw [sumw_append, wf_sumw_zero hb]
        show 0 ≤ w l + (0 + (w c + sumw (rest.take (scanIdx ("blockquote_close") rest))))
        have h5 := ihr.2 _ rfl (by omega)
        omega

theorem itemSpanFacts_extend (B ext : List Token) (h : ItemSpanFacts B) :
    ItemSpanFacts (B ++ ext) := by
  obtain ⟨k, hk, hlt, ⟨u, hu, hut⟩, hsum⟩ := h
  refine ⟨k, ?_, ?_, ⟨u, ?_, hut⟩, ?_⟩
  · rw [scanIdx_append_found _ _ _ (by rw [hk]; exact hlt)]
    exact hk
  · simp only [List.length_append]
    omega
  · rw [List.getElem?_append, if_pos hlt]
    exact hu
  · rw [List.take_append_of_le_length (le_of_lt hlt)]
    exact hsum

theorem quoteSpanFacts_extend (B ext : List Token) (h : QuoteSpanFacts B) :
    QuoteSpanFacts (B ++ ext) := by
  obtain ⟨k, hk, hlt, ⟨u, hu, hut⟩, hsum⟩ := h
  refine ⟨k, ?_, ?_, ⟨u, ?_, hut⟩, ?_⟩
  · rw [scanIdx_append_found _ _ _ (by rw [hk]; exact hlt)]
    exact hk
  · simp only [List.length_append]
    omega
  · rw [List.getElem?_append, if_pos hlt]
    exact hu
  · rw [List.take_append_of_le_length (le_of_lt hlt)]
    exact hsum

theorem tripleFacts_extend (B ext : List Token) (h : TripleFacts B) :
    TripleFacts (B ++ ext) := by
  obtain ⟨u, v, B2, hB, hwu, hwv⟩ := h
  subst hB
  exact ⟨u, v, B2 ++ ext, by simp, hwu, hwv⟩

theorem suffixFacts_extend (t : Token) (B ext : List Token) (h : SuffixFacts t B) :
    SuffixFacts t (B ++ ext) :=
  ⟨fun ht => itemSpanFacts_extend B ext (h.1 ht),
   fun ht => quoteSpanFacts_extend B ext (h.2.1 ht),
   fun ht => tripleFacts_extend B ext (h.2.2 ht)⟩

theorem suffixFacts_of_other (t : Token) (B : List Token)
    (h1 : t.type ≠ "list_item_open") (h2 : t.type ≠ "blockquote_open")
    (h3 : t.type ≠ "heading_open") (h4 : t.type ≠ "paragraph_open") : SuffixFacts t B := by
  refine ⟨fun hc => absurd hc h1, fun hc => absurd hc h2, fun hc => ?_⟩
  rcases hc with hc | hc
  · exact absurd hc h3
  · exact absurd hc h4

theorem append_cons_cases {l1 l2 A B : List Token} {t : Token}
    (h : l1 ++ l2 = A ++ t :: B) :
    (∃ B1, l1 = A ++ t :: B1 ∧ B = B1 ++ l2)
    ∨ (∃ A2, A = l1 ++ A2 ∧ l2 = A2 ++ t :: B) := by
  rcases List.append_eq_append_iff.mp h with ⟨a2, ha1, ha2⟩ | ⟨c2, hc1, hc2⟩
  · right
    exact ⟨a2, ha1, ha2⟩
  · rcases c2 with _ | ⟨x, c3⟩
    · right
      refine ⟨[], ?_, ?_⟩
      · simp [hc1]
      · rw [List.nil_append]
        rw [List.nil_append] at hc2
        exact hc2.symm
    · left
      rw [List.cons_append] at hc2
      injection hc2 with hx hB
      refine ⟨c3, ?_, hB⟩
      rw [hc1, hx]

/-- The positional facts of a well-formed stream: wherever a
list-item-open, blockquote-open, heading-open or paragraph-open occurs,
its suffix carries the facts the walker's jump for that token relies
on. -/
theorem wf_split_facts {b : Bool} {ts : List Token} (hwf : WF b ts) :
    ∀ (A : List Token) (t : Token) (B : List Token), ts = A ++ t :: B → SuffixFacts t B := by
  induction hwf with
  | nil =>
    intro A t B hAB
    rcases A with _ | ⟨a, A2⟩ <;> simp at hAB
  | atom s rest h hr ih =>
    intro A t B hAB
    rcases A with _ | ⟨a, A2⟩
    · rw [List.nil_append] at hAB
      injection hAB with e1 e2
      subst e1
      exact suffixFacts_of_other s B
        (atom_not_type s h _ (by decide)) (atom_not_type s h _ (by decide))
        (atom_not_type s h _ (by decide)) (atom_not_type s h _ (by decide))
    · rw [List.cons_append] at hAB
      injection hAB with e1 e2
      exact ih A2 t B e2
  | heading t0 u0 v0 rest h1 h2 h3 hr ih =>
    intro A t B hAB
    rcases A with _ | ⟨a1, A2⟩
    · rw [List.nil_append] at hAB
      injection hAB with e1 e2
      subst e1
      subst e2
      refine ⟨fun hcon => ?_, fun hcon => ?_, fun _ => ?_⟩
      · rw [h1] at hcon
        exact absurd hcon (by decide)
      · rw [h1] at hcon
        exact absurd hcon (by decide)
      · exact ⟨u0, v0, rest, rfl, by simp [w, h2], by simp [w, h3]⟩
    · rw [List.cons_append] at hAB
      injection hAB with e1 e2
      rcases A2 with _ | ⟨a2, A3⟩
      · rw [List.nil_append] at e2
        injection e2 with f1 f2
        subst f1
        exact suffixFacts_of_other u0 B (by rw [h2]; decide) (by rw [h2]; decide)
          (by rw [h2]; decide) (by rw [h2]; decide)
      · rw [List.cons_append] at e2
        injection e2 with f1 f2
        rcases A3 with _ | ⟨a3, A4⟩
        · rw [List.nil_append] at f2
          injection f2 with g1 g2
          subst g1
          exact suffixFacts_of_other v0 B (by rw [h3]; decide) (by rw [h3]; decide)
            (by rw [h3]; decide) (by rw [h3]; decide)
        · rw [List.cons_append] at f2
          injection f2 with g1 g2
          exact ih A4 t B g2
  | para t0 u0 v0 rest h1 h2 h3 hr ih =>
    intro A t B hAB
    rcases A with _ | ⟨a1, A2⟩
    · rw [List.nil_append] at hAB
      injection hAB with e1 e2
      subst e1
      subst e2
      refine ⟨fun hcon => ?_, fun hcon => ?_, fun _ => ?_⟩
      · rw [h1] at hcon
        exact absurd hcon (by decide)
      · rw [h1] at hcon
        exact absurd hcon (by decide)
      · exact ⟨u0, v0, rest, rfl, by simp [w, h2], by simp [w, h3]⟩
    · rw [List.cons_append] at hAB
      injection hAB with e1 e2
      rcases A2 with _ | ⟨a2, A3⟩
      · rw [List.nil_append] at e2
        injection e2 with f1 f2
        subst f1
        exact suffixFacts_of_other u0 B (by rw [h2]; decide) (by rw [h2]; decide)
          (by rw [h2]; decide) (by rw [h2]; decide)
      · rw [List.cons_append] at e2
        injection e2 with f1 f2
        rcases A3 with _ | ⟨a3, A4⟩
        · rw [List.nil_append] at f2
          injection f2 with g1 g2
          subst g1
          exact suffixFacts_of_other v0 B (by rw [h3]; decide) (by rw [h3]; decide)
            (by rw [h3]; decide) (by rw [h3]; decide)
        · rw [List.cons_append] at f2
          injection f2 with g1 g2
          exact ih A4 t B g2
  | blist o c items rest ho hc hi hr ihi ihr =>
    intro A t B hAB
    rcases A with _ | ⟨a1, A2⟩
    · rw [List.nil_append] at hAB
      injection hAB with e1 e2
      subst e1
      exact suffixFacts_of_other o B (by rw [ho]; decide) (by rw [ho]; decide)
        (by rw [ho]; decide) (by rw [ho]; decide)
    · rw [List.cons_append] at hAB
      injection hAB with e1 e2
      rcases append_cons_cases e2 with ⟨B1, hin, hB⟩ | ⟨A3, hA3, hrest⟩
      · subst hB
        exact suffixFacts_extend t B1 (c :: rest) (ihi A2 t B1 hin)
      · rcases A3 with _ | ⟨a3, A4⟩
        · rw [List.nil_append] at hrest
          injection hrest with f1 f2
          subst f1
          exact suffixFacts_of_other c B (by rw [hc]; decide) (by rw [hc]; decide)
            (by rw [hc]; decide) (by rw [hc]; decide)
        · rw [List.cons_append] at hrest
          injection hrest with f1 f2
          exact ihr A4 t B f2
  | olist o c items rest ho hc hi hr ihi ihr =>
    intro A t B hAB
    rcases A with _ | ⟨a1, A2⟩
    · rw [List.nil_append] at hAB
      injection hAB with e1 e2
      subst e1
      exact suffixFacts_of_other o B (by rw [ho]; decide) (by rw [ho]; decide)
        (by rw [ho]; decide) (by rw [ho]; decide)
    · rw [List.cons_append] at hAB
      injection hAB with e1 e2
      rcases append_cons_cases e2 with ⟨B1, hin, hB⟩ | ⟨A3, hA3, hrest⟩
      · subst hB
        exact suffixFacts_extend t B1 (c :: rest) (ihi A2 t B1 hin)
      · rcases A3 with _ | ⟨a3, A4⟩
        · rw [List.nil_append] at hrest
          injection hrest with f1 f2
          subst f1
          exact suffixFacts_of_other c B (by rw [hc]; decide) (by rw [hc]; decide)
            (by rw [hc]; decide) (by rw [hc]; decide)
        · rw [List.cons_append] at hrest
          injection hrest with f1 f2
          exact ihr A4 t B f2
  | quote o c inner rest ho hc hi hr ihi ihr =>
    intro A t B hAB
    rcases A with _ | ⟨a1, A2⟩
    · rw [List.nil_append] at hAB
      injection hAB with e1 e2
      subst e1
      subst e2
      refine ⟨fun hcon => ?_, fun _ => ?_, fun hcon => ?_⟩
      · rw [ho] at hcon
        exact absurd hcon (by decide)
      · by_cases hfound : scanIdx ("blockquote_close") inner < inner.length
        · refine ⟨scanIdx ("blockquote_close") inner,
            scanIdx_append_found _ _ _ hfound, ?_, ?_, ?_⟩
          · simp only [List.length_append, List.length_cons]
            omega
          · obtain ⟨u, hu, hut⟩ := scanIdx_getElem _ _ hfound
            refine ⟨u, ?_, hut⟩
            rw [List.getElem?_append, if_pos hfound]
            exact hu
          · rw [List.take_append_of_le_length (le_of_lt hfound)]
            exact (wf_scan_sums hi).2 _ rfl hfound
        · have hnf : scanIdx ("blockquote_close") inner = inner.length :=
            le_antisymm (scanIdx_le_length _ _) (by omega)
          refine ⟨inner.length, ?_, ?_, ?_, ?_⟩
          · rw [scanIdx_append_notfound _ _ _ hnf]
            simp [scanIdx, hc]
          · simp only [List.length_append, List.length_cons]
            omega
          · refine ⟨c, ?_, hc⟩
            rw [List.getElem?_append, if_neg (by omega)]
            simp
          · rw [List.take_left]
            rw [wf_sumw_zero hi]
      · rw [ho] at hcon
        rcases hcon with hcon | hcon <;> exact absurd hcon (by decide)
    · rw [List.cons_append] at hAB
      injection hAB with e1 e2
      rcases append_cons_cases e2 with ⟨B1, hin, hB⟩ | ⟨A3, hA3, hrest⟩
      · subst hB
        exact suffixFacts_extend t B1 (c :: rest) (ihi A2 t B1 hin)
      · rcases A3 with _ | ⟨a3, A4⟩
        · rw [List.nil_append] at hrest
          injection hrest with f1 f2
          subst f1
          exact suffixFacts_of_other c B (by rw [hc]; decide) (by rw [hc]; decide)
            (by rw [hc]; decide) (by rw [hc]; decide)
        · rw [List.cons_append] at hrest
          injection hrest with f1 f2
          exact ihr A4 t B f2
  | item l0 c body rest hl hc hb hr ihb ihr =>
    intro A t B hAB
    rcases A with _ | ⟨a1, A2⟩
    · rw [List.nil_append] at hAB
      injection hAB with e1 e2
      subst e1
      subst e2
      refine ⟨fun _ => ?_, fun hcon => ?_, fun hcon => ?_⟩
      · by_cases hfound : scanIdx ("list_item_close") body < body.length
        · refine ⟨scanIdx ("list_item_close") body,
            scanIdx_append_found _ _ _ hfound, ?_, ?_, ?_⟩
          · simp only [List.length_append, List.length_cons]
            omega
          · obtain ⟨u, hu, hut⟩ := scanIdx_getElem _ _ hfound
            refine ⟨u, ?_, hut⟩
            rw [List.getElem?_append, if_pos hfound]
            exact hu
          · rw [List.take_append_of_le_length (le_of_lt hfound)]
            exact (wf_scan_sums hb).1 _ rfl hfound
        · have hnf : scanIdx ("list_item_close") body = body.length :=
            le_antisymm (scanIdx_le_length _ _) (by omega)
          refine ⟨body.length, ?_, ?_, ?_, ?_⟩
          · rw [scanIdx_append_notfound _ _ _ hnf]
            simp [scanIdx, hc]
          · simp only [List.length_append, List.length_cons]
            omega
          · refine ⟨c, ?_, hc⟩
            rw [List.getElem?_append, if_neg (by omega)]
            simp
          · rw [List.take_left]
            rw [wf_sumw_zero hb]
      · rw [hl] at hcon
        exact absurd hcon (by decide)
      · rw [hl] at hcon
        rcases hcon with hcon | hcon <;> exact absurd hcon (by decide)
    · rw [List.cons_append] at hAB
      injection hAB with e1 e2
      rcases append_cons_cases e2 with ⟨B1, hin, hB⟩ | ⟨A3, hA3, hrest⟩
      · subst hB
        exact suffixFacts_extend t B1 (c :: rest) (ihb A2 t B1 hin)
      · rcases A3 with _ | ⟨a3, A4⟩
        · rw [List.nil_append] at hrest
          injection hrest with f1 f2
          subst f1
          exact suffixFacts_of_other c B (by rw [hc]; decide) (by rw [hc]; decide)
            (by rw [hc]; decide) (by rw [hc]; decide)
        · rw [List.cons_append] at hrest
          injection hrest with f1 f2
          exact ihr A4 t B f2

/-- One step of the walk preserves the stack-depth invariant: the stack
length stays below the running Dyck prefix sum, and the cursor stays in
bounds. -/
theorem inv_step {ts : List Token} (hwf : WF true ts) (st : BState)
    (hlt : st.i < ts.length)
    (hstk : (st.list_stack.length : Int) ≤ sumw (ts.take st.i)) :
    ((step ts st).list_stack.length : Int) ≤ sumw (ts.take (step ts st).i)
    ∧ (step ts st).i ≤ ts.length := by
  have htok : ts[st.i]? = some (ts[st.i]) := List.getElem?_eq_getElem hlt
  have hdecomp : ts = ts.take st.i ++ ts[st.i] :: ts.drop (st.i + 1) := by
    conv_lhs => rw [← List.take_append_drop st.i ts]
    rw [List.drop_eq_getElem_cons hlt]
  have hA : (ts.take st.i).length = st.i := by
    rw [List.length_take]
    omega
  have hlen : ts.length = st.i + 1 + (ts.drop (st.i + 1)).length := by
    conv_lhs => rw [hdecomp]
    rw [List.length_append, List.length_cons, hA]
    omega
  have hfacts := wf_split_facts hwf _ _ _ hdecomp
  have hsplit : ∀ m, sumw (ts.take (st.i + 1 + m))
      = sumw (ts.take st.i) + w (ts[st.i]) + sumw ((ts.drop (st.i + 1)).take m) := by
    intro m
    conv_lhs => rw [hdecomp]
    rw [show st.i + 1 + m = (ts.take st.i).length + (1 + m) by omega]
    rw [List.take_add, List.take_left, List.drop_left]
    rw [show 1 + m = m + 1 by omega, List.take_succ_cons]
    rw [sumw_append]
    show sumw (ts.take st.i) + (w (ts[st.i]) + sumw ((ts.drop (st.i + 1)).take m))
      = sumw (ts.take st.i) + w (ts[st.i]) + sumw ((ts.drop (st.i + 1)).take m)
    omega
  by_cases h1 : (ts[st.i]).type = "heading_open"
  · obtain ⟨u, v, B2, hB, hwu, hwv⟩ := hfacts.2.2 (Or.inl h1)
    have hstep : (step ts st).i = st.i + 3 ∧ (step ts st).list_stack = st.list_stack := by
      simp [step, htok, h1]
    have hw0 : w (ts[st.i]) = 0 := by simp [w, h1]
    have hBlen : 2 ≤ (ts.drop (st.i + 1)).length := by
      rw [hB]
      simp
    constructor
    · rw [hstep.1, hstep.2]
      rw [show st.i + 3 = st.i + 1 + 2 by omega, hsplit 2, hB]
      have ht2 : (u :: v :: B2).take 2 = [u, v] := rfl
      rw [ht2]
      have hs2 : sumw [u, v] = w u + (w v + 0) := rfl
      omega
    · rw [hstep.1]
      omega
  · by_cases h2 : (ts[st.i]).type = "paragraph_open"
    · obtain ⟨u, v, B2, hB, hwu, hwv⟩ := hfacts.2.2 (Or.inr h2)
      have hstep : (step ts st).i = st.i + 3 ∧ (step ts st).list_stack = st.list_stack := by
        simp only [step, htok]
        rw [if_neg h1, if_pos h2]
        cases hx : ts[st.i + 1]? <;> simp [hx]
      have hw0 : w (ts[st.i]) = 0 := by simp [w, h2]
      have hBlen : 2 ≤ (ts.drop (st.i + 1)).length := by
        rw [hB]
        simp
      constructor
      · rw [hstep.1, hstep.2]
        rw [show st.i + 3 = st.i + 1 + 2 by omega, hsplit 2, hB]
        have ht2 : (u :: v :: B2).take 2 = [u, v] := rfl
        rw [ht2]
        have hs2 : sumw [u, v] = w u + (w v + 0) := rfl
        omega
      · rw [hstep.1]
        omega
    · by_cases h34 : (ts[st.i]).type = "bullet_list_open" ∨ (ts[st.i]).type = "ordered_list_open"
      · have hstep : (step ts st).i = st.i + 1
            ∧ (step ts st).list_stack
              = { type := (ts[st.i]).type, indent := st.list_stack.length } :: st.list_stack := by
          simp only [step, htok]
          rw [if_neg h1, if_neg h2, if_pos h34]
          exact ⟨rfl, rfl⟩
        have hw1 : w (ts[st.i]) = 1 := by
          rcases h34 with h | h <;> simp [w, h]
        have e0 : sumw (ts.take (st.i + 1))
            = sumw (ts.take st.i) + w (ts[st.i]) + 0 := hsplit 0
        constructor
        · rw [hstep.1, hstep.2]
          simp only [List.length_cons]
          push_cast
          omega
        · rw [hstep.1]
          omega
      · by_cases h56 : (ts[st.i]).type = "bullet_list_close"
            ∨ (ts[st.i]).type = "ordered_list_close"
        · have hstep : (step ts st).i = st.i + 1
              ∧ (step ts st).list_stack = st.list_stack.tail := by
            simp only [step, htok]
            rw [if_neg h1, if_neg h2, if_neg h34, if_pos h56]
            exact ⟨rfl, rfl⟩
          have hwneg : w (ts[st.i]) = -1 := by
            rcases h56 with h | h <;> simp [w, h34, h]
          have e0 : sumw (ts.take (st.i + 1))
              = sumw (ts.take st.i) + w (ts[st.i]) + 0 := hsplit 0
          have hnn := wf_take_nonneg hwf (st.i + 1)
          have htail : (st.list_stack.tail).length + 1 = st.list_stack.length
              ∨ (st.list_stack.tail).length = 0 ∧ st.list_stack.length = 0 := by
            rcases st.list_stack with _ | ⟨e, es⟩
            · right
              exact ⟨rfl, rfl⟩
            · left
              rfl
          constructor
          · rw [hstep.1, hstep.2]
            rcases htail with h | ⟨ha, hb⟩
            · rw [e0]
              push_cast
              omega
            · rw [e0, ha]
              rw [e0] at hnn
              omega
          · rw [hstep.1]
            omega
        · by_cases h7 : (ts[st.i]).type = "list_item_open"
          · obtain ⟨k, hk, hklt, ⟨u, hu, hut⟩, hksum⟩ := hfacts.1 h7
            have hscan : (itemScan (ts.drop (st.i + 1)) ("")).1 = k := by
              rw [itemScan_fst]
              exact hk
            have hstep : (step ts st).i = st.i + 1 + k + 1
                ∧ (step ts st).list_stack = st.list_stack := by
              simp only [step, htok]
              rw [if_neg h1, if_neg h2, if_neg h34, if_neg h56, if_pos h7]
              refine ⟨?_, rfl⟩
              show st.i + 1 + (itemScan (ts.drop (st.i + 1)) ("")).1 + 1 = st.i + 1 + k + 1
              rw [hscan]
            have hw0 : w (ts[st.i]) = 0 := by simp [w, h34, h56]
            have hwu0 : w u = 0 := by simp [w, hut]
            have htk : (ts.drop (st.i + 1)).take (k + 1)
                = (ts.drop (st.i + 1)).take k ++ [u] := by
              rw [List.take_succ, hu]
              rfl
            constructor
            · rw [hstep.1, hstep.2]
              rw [show st.i + 1 + k + 1 = st.i + 1 + (k + 1) by omega, hsplit (k + 1)]
              rw [htk, sumw_append]
              have hsu : sumw [u] = w u + 0 := rfl
              omega
            · rw [hstep.1]
              omega
          · by_cases h9 : (ts[st.i]).type = "fence"
            · have hstep : (step ts st).i = st.i + 1
                  ∧ (step ts st).list_stack = st.list_stack := by
                simp only [step, htok]
                rw [if_neg h1, if_neg h2, if_neg h34, if_neg h56, if_neg h7, if_pos h9]
                exact ⟨rfl, rfl⟩
              have hw0 : w (ts[st.i]) = 0 := by simp [w, h34, h56]
              have e0 : sumw (ts.take (st.i + 1))
                  = sumw (ts.take st.i) + w (ts[st.i]) + 0 := hsplit 0
              constructor
              · rw [hstep.1, hstep.2]
                omega
              · rw [hstep.1]
                omega
            · by_cases h8 : (ts[st.i]).type = "blockquote_open"
              · obtain ⟨k, hk, hklt, ⟨u, hu, hut⟩, hksum⟩ := hfacts.2.1 h8
                have hscan : (quoteScan (ts.drop (st.i + 1)) []).1 = k := by
                  rw [quoteScan_fst]
                  exact hk
                have hstep : (step ts st).i = st.i + 1 + k + 1
                    ∧ (step ts st).list_stack = st.list_stack := by
                  simp only [step, htok]
                  rw [if_neg h1, if_neg h2, if_neg h34, if_neg h56, if_neg h7, if_neg h9,
                    if_pos h8]
                  refine ⟨?_, rfl⟩
                  show st.i + 1 + (quoteScan (ts.drop (st.i + 1)) []).1 + 1 = st.i + 1 + k + 1
                  rw [hscan]
                have hw0 : w (ts[st.i]) = 0 := by simp [w, h34, h56]
                have hwu0 : w u = 0 := by simp [w, hut]
                have htk : (ts.drop (st.i + 1)).take (k + 1)
                    = (ts.drop (st.i + 1)).take k ++ [u] := by
                  rw [List.take_succ, hu]
                  rfl
                constructor
                · rw [hstep.1, hstep.2]
                  rw [show st.i + 1 + k + 1 = st.i + 1 + (k + 1) by omega, hsplit (k + 1)]
                  rw [htk, sumw_append]
                  have hsu : sumw [u] = w u + 0 := rfl
                  omega
                · rw [hstep.1]
                  omega
              · by_cases h10 : (ts[st.i]).type = "hr"
                · have hstep : (step ts st).i = st.i + 1
                      ∧ (step ts st).list_stack = st.list_stack := by
                    simp only [step, htok]
                    rw [if_neg h1, if_neg h2, if_neg h34, if_neg h56, if_neg h7, if_neg h9,
                      if_neg h8, if_pos h10]
                    exact ⟨rfl, rfl⟩
                  have hw0 : w (ts[st.i]) = 0 := by simp [w, h34, h56]
                  have e0 : sumw (ts.take (st.i + 1))
                      = sumw (ts.take st.i) + w (ts[st.i]) + 0 := hsplit 0
                  constructor
                  · rw [hstep.1, hstep.2]
                    omega
                  · rw [hstep.1]
                    omega
                · have hstep : (step ts st).i = st.i + 1
                      ∧ (step ts st).list_stack = st.list_stack := by
                    simp only [step, htok]
                    rw [if_neg h1, if_neg h2, if_neg h34, if_neg h56, if_neg h7, if_neg h9,
                      if_neg h8, if_neg h10]
                    exact ⟨rfl, rfl⟩
                  have hw0 : w (ts[st.i]) = 0 := by simp [w, h34, h56]
                  have e0 : sumw (ts.take (st.i + 1))
                      = sumw (ts.take st.i) + w (ts[st.i]) + 0 := hsplit 0
                  constructor
                  · rw [hstep.1, hstep.2]
                    omega
                  · rw [hstep.1]
                    omega

/-- The walk preserves the stack-depth invariant for any fuel. -/
theorem inv_walk {ts : List Token} (hwf : WF true ts) : ∀ (fuel : Nat) (st : BState),
    (st.list_stack.length : Int) ≤ sumw (ts.take st.i) → st.i ≤ ts.length →
    ((walk ts fuel st).list_stack.length : Int) ≤ sumw (ts.take (walk ts fuel st).i)
    ∧ (walk ts fuel st).i ≤ ts.length := by
  intro fuel
  induction fuel with
  | zero =>
    intro st hs hi
    exact ⟨hs, hi⟩
  | succ m ih =>
    intro st hs hi
    simp only [walk]
    by_cases hlt : st.i < ts.length
    · rw [if_pos hlt]
      obtain ⟨p1, p2⟩ := inv_step hwf st hlt hs
      exact ih (step ts st) p1 p2
    · rw [if_neg hlt]
      exact ⟨hs, hi⟩

/-- On a well-formed stream, the builder's list stack is empty when the
walk terminates. -/
theorem wf_build_stack (ts : List Token) (hwf : WF true ts) : (build ts).list_stack = [] := by
  have hinv : ((build ts).list_stack.length : Int) ≤ sumw (ts.take (build ts).i)
      ∧ (build ts).i ≤ ts.length :=
    inv_walk hwf ts.length { i := 0, list_stack := [], paras := [] }
      (by simp [sumw]) (by simp)
  have hge : ts.length ≤ (build ts).i :=
    walk_cursor_ge ts ts.length { i := 0, list_stack := [], paras := [] } (by omega)
  have hieq : (build ts).i = ts.length := le_antisymm hinv.2 hge
  have h1 := hinv.1
  rw [hieq, List.take_length, wf_sumw_zero hwf] at h1
  have h2 : (build ts).list_stack.length = 0 := by omega
  exact List.length_eq_zero.mp h2

/-- C3 (amended): for every well-formed, fully balanced token stream as
the external parser produces it (heading and paragraph opens each
followed by exactly an inline token and their close; lists, items and
blockquotes matched and properly nested, to any depth), the list context
stack is empty when the walk terminates; it starts empty, and a
list-close pop on an already empty stack is a no-op. -/
theorem C3_stack_balanced_amended (ts : List Token) (hwf : WF true ts) :
    (build ts).list_stack = []
    ∧ (∀ (ts2 : List Token) (st : BState) (tok : Token), ts2[st.i]? = some tok →
        tok.type = "bullet_list_close" ∨ tok.type = "ordered_list_close" →
        st.list_stack = [] → (step ts2 st).list_stack = []) := by
  refine ⟨wf_build_stack ts hwf, ?_⟩
  intro ts2 st tok htok hty hnil
  rcases hty with hty | hty <;> simp [step, htok, hty, hnil]

/-- Witness for C3 (amended) on a doubly nested balanced list stream. -/
theorem C3_stack_balanced_amended_witness : (build tsDeep).list_stack = [] := by
  have hwf : WF true tsDeep :=
    WF.blist (mkTok ("bullet_list_open")) (mkTok ("bullet_list_close"))
      [mkTok ("list_item_open"), mkTok ("ordered_list_open"), mkTok ("list_item_open"),
       inlineText ("x"), mkTok ("list_item_close"), mkTok ("ordered_list_close"),
       mkTok ("list_item_close")] [] rfl rfl
      (WF.item (mkTok ("list_item_open")) (mkTok ("list_item_close"))
        [mkTok ("ordered_list_open"), mkTok ("list_item_open"), inlineText ("x"),
         mkTok ("list_item_close"), mkTok ("ordered_list_close")] [] rfl rfl
        (WF.olist (mkTok ("ordered_list_open")) (mkTok ("ordered_list_close"))
          [mkTok ("list_item_open"), inlineText ("x"), mkTok ("list_item_close")] [] rfl rfl
          (WF.item (mkTok ("list_item_open")) (mkTok ("list_item_close"))
            [inlineText ("x")] [] rfl rfl
            (WF.atom (inlineText ("x")) [] (by decide) (WF.nil true))
            (WF.nil false))
          (WF.nil true))
        (WF.nil false))
      (WF.nil true)
  exact (C3_stack_balanced_amended tsDeep hwf).1

end Md2doc
